import Mathlib

/-!
Verification of the evaluation/ranking/regression core of the
Onedrive_Image_Evaluation_Framework repository.

The Python modules `run_acrue_v3.py`, `benchmark_orchestrator.py`,
`compare_runs.py` and `config.py` are shallowly embedded below:
JSON numbers become `ℚ`, JSON strings become `String`, possibly-missing
JSON keys become `Option`, Python dicts with insertion order become
association lists `List (String × _)`, and Python's stable `list.sort`
becomes `List.mergeSort` (a stable sort).  File-system and clock effects
are made explicit as arguments/state records.
-/

namespace AcrueSpec

/-- Embedding of Python's built-in `round` restricted to rationals:
round-half-to-even on the scaled value.  `pyRoundInt q` is the integer
nearest to `q`, ties going to the even integer. -/
def pyRoundInt (q : ℚ) : ℤ :=
  let f := ⌊q⌋
  let r := q - f
  if r < 1/2 then f
  else if 1/2 < r then f + 1
  else if 2 ∣ f then f else f + 1

/-- Embedding of Python's `round(x, n)` for `n` decimal digits. -/
def pyRound (n : ℕ) (q : ℚ) : ℚ :=
  (pyRoundInt (q * 10 ^ n) : ℚ) / 10 ^ n

/-- `run_acrue_v3.get_grade` / `config.get_grade`: letter grade from a
percentage, strict descending breakpoints 90/80/70/60. -/
def get_grade (percentage : ℚ) : String :=
  if percentage ≥ 90 then "A+"
  else if percentage ≥ 80 then "A"
  else if percentage ≥ 70 then "B"
  else if percentage ≥ 60 then "C"
  else "F"

/-- `run_acrue_v3.WEIGHTS`: the five ACRUE dimensions with their fixed
weights, in dict insertion order. -/
def WEIGHTS : List (String × ℚ) :=
  [("accuracy", 1), ("completeness", 1), ("relevance", 1/2),
   ("usefulness", 1/2), ("exceptional", 2)]

/-- `MAX_SCORE` from `run_acrue_v3.py` / `config.py`. -/
def MAX_SCORE : ℚ := 25

/-- One judge-produced assertion record (`{id, question, answer,
confidence, evidence}`); `confidence` is `Option` because
`calculate_v3_summary` only collects it when the key is present. -/
structure AssertionRec where
  question : String
  answer : String
  confidence : Option ℚ
  evidence : String
deriving Repr, DecidableEq

/-- One dimension of the raw judge response (`dimensions_data[dim]` in
`calculate_v3_scores`); every field is read with `.get` and a default,
so each is `Option` here. -/
structure DimInput where
  passed : Option ℚ
  total : Option ℚ
  avg_confidence : Option ℚ
  dimension_score : Option ℚ
  assertions : List AssertionRec
deriving Repr, DecidableEq

/-- The `{}` default used by `dimensions_data.get(dimension, {})`. -/
def DimInput.empty : DimInput :=
  { passed := none, total := none, avg_confidence := none,
    dimension_score := none, assertions := [] }

/-- Association-list lookup by key, mirroring Python dict lookup
(Python dict keys are unique; on a list with duplicate keys this finds
the first). -/
def alookup (key : String) : List (String × α) → Option α
  | [] => none
  | p :: ps => if p.1 = key then some p.2 else alookup key ps

/-- One entry of the result of `calculate_v3_scores` (the presentational
`pass_rate` string `f"{passed}/{total}"` is not modelled; `passed` and
`total` carry the same data). -/
structure DimScore where
  weight : ℚ
  passed : ℚ
  total : ℚ
  avg_confidence : ℚ
  dimension_score : ℚ
  weighted_score : ℚ
  assertions : List AssertionRec
deriving Repr, DecidableEq

/-- `run_acrue_v3.calculate_v3_scores`: for each of the five weighted
dimensions, read the judge-supplied fields (with the code's defaults
`passed=0, total=1, avg_confidence=0, dimension_score=0`) and set
`weighted_score = dimension_score * weight`.  No clamping is applied
anywhere.  The output keeps the `WEIGHTS` iteration order. -/
def calculate_v3_scores (dimensions_data : List (String × DimInput)) :
    List (String × DimScore) :=
  WEIGHTS.map (fun dw =>
    let dim_data := (alookup dw.1 dimensions_data).getD DimInput.empty
    let passed := dim_data.passed.getD 0
    let total := dim_data.total.getD 1
    let avg_confidence := dim_data.avg_confidence.getD 0
    let dimension_score := dim_data.dimension_score.getD 0
    let weighted_score := dimension_score * dw.2
    (dw.1,
      { weight := dw.2
        passed := passed
        total := total
        avg_confidence := pyRound 2 avg_confidence
        dimension_score := pyRound 2 dimension_score
        weighted_score := pyRound 2 weighted_score
        assertions := dim_data.assertions }))

/-- Result of `calculate_v3_summary` (the presentational
`overall_pass_rate` string is carried as the two counts). -/
structure SummaryOut where
  total_assertions : ℚ
  total_passed : ℚ
  overall_avg_confidence : ℚ
  weighted_total : ℚ
  max_score : ℚ
  percentage : ℚ
  grade : String
deriving Repr, DecidableEq

/-- `run_acrue_v3.calculate_v3_summary`: sum the (already rounded)
per-dimension `weighted_score`s, derive `percentage` from `MAX_SCORE`,
and grade it.  Again no clamping is applied. -/
def calculate_v3_summary (scores : List (String × DimScore)) : SummaryOut :=
  let weighted_total := (scores.map (fun s => s.2.weighted_score)).sum
  let percentage := weighted_total / MAX_SCORE * 100
  let total_passed := (scores.map (fun s => s.2.passed)).sum
  let total_assertions := (scores.map (fun s => s.2.total)).sum
  let all_confidences :=
    (scores.map (fun s => s.2.assertions.filterMap (fun a => a.confidence))).flatten
  let avg_confidence :=
    if all_confidences.length ≠ 0 then
      all_confidences.sum / all_confidences.length
    else 0
  { total_assertions := total_assertions
    total_passed := total_passed
    overall_avg_confidence := pyRound 2 avg_confidence
    weighted_total := pyRound 2 weighted_total
    max_score := MAX_SCORE
    percentage := pyRound 1 percentage
    grade := get_grade percentage }

/-- The `dimension_score` the judging layer supplied for dimension `name`
(after the code's `.get` defaults): this is exactly the value
`calculate_v3_scores` multiplies by the weight. -/
def suppliedScore (dims : List (String × DimInput)) (name : String) : ℚ :=
  ((alookup name dims).getD DimInput.empty).dimension_score.getD 0

/-- A judge response reporting `dimension_score = 10` on every dimension:
the input used to refute the clamping claim. -/
def overDim : DimInput :=
  { passed := some 5, total := some 5, avg_confidence := some 5,
    dimension_score := some 10, assertions := [] }

/-- The five-dimension judge response built from `overDim`. -/
def overDims : List (String × DimInput) :=
  [("accuracy", overDim), ("completeness", overDim), ("relevance", overDim),
   ("usefulness", overDim), ("exceptional", overDim)]


/-- Replace the value at key `k` if present (keeping its position), else
append `(k, v)`: the behaviour of a Python dict assignment `d[k] = v`
under insertion order. -/
def upsert (l : List (String × α)) (k : String) (v : α) : List (String × α) :=
  if l.any (fun p => p.1 == k) then
    l.map (fun p => if p.1 = k then (p.1, v) else p)
  else l ++ [(k, v)]

/-- The dict built by inserting the pairs in order (later pairs with the
same key overwrite earlier ones), as a Python dict comprehension does. -/
def dictOf (l : List (String × α)) : List (String × α) :=
  l.foldl (fun acc p => upsert acc p.1 p.2) []

/-- Group a keyed list preserving first-occurrence key order and
encounter order of values: the dict built by
`d.setdefault(key, []).append(value)` over the pairs in order. -/
def groupPairs : List (String × β) → List (String × List β)
  | [] => []
  | (k, v) :: rest =>
      (k, v :: (rest.filter (fun p => p.1 == k)).map Prod.snd) ::
        groupPairs (rest.filter (fun p => p.1 != k))
termination_by l => l.length
decreasing_by
  simp only [List.length_cons]
  exact Nat.lt_succ_of_le (List.length_filter_le _ _)

/-- `for i, item in enumerate(l, i0): item["rank"] = i` — attach 1-based
(or `i0`-based) ranks to a list, keeping its order. -/
def enumFrom1 (i0 : ℕ) : List α → List (ℕ × α)
  | [] => []
  | a :: as => (i0, a) :: enumFrom1 (i0 + 1) as

/-!  ## benchmark_orchestrator.py: run specification and validator  -/

/-- The parsed `run_spec.json` (fields the core reads; absent JSON keys
surface through the code's `.get` defaults, folded into the parse). -/
structure RunSpec where
  run_id : String
  styles : List String
  image_count : ℤ
  output_dir : String
  baseline_run_id : Option String
  feasibility_weight : ℚ
  preference_weight : ℚ
  pipeline_version : String
  acrue_version : String
deriving Repr, DecidableEq

/-- The environment `validate_phase1` consults: file-system existence
checks and the credential, abstracted as predicates.  `parsed` is the
result of loading/parsing `run_spec.json`; its error value carries the
`V2 FAIL` message built by `load_run_spec`. -/
structure ValidateEnv where
  spec_exists : Bool
  parsed : Except String RunSpec
  output_dir_exists : String → Bool
  baseline_dir_exists : String → Bool
  gemini_api_key : Bool

/-- The `errors` list accumulated by `validate_phase1` over checks
V3–V7, in program order (V8 is skipped in the Python source).  The V6
check runs only when `baseline_run_id` is set and truthy. -/
def phase1Errors (env : ValidateEnv) (spec : RunSpec) : List String :=
  (if spec.styles.length ≠ 3 then
    ["V3 FAIL: styles must have exactly 3 items, got " ++
      toString spec.styles.length] else []) ++
  (if spec.image_count ≠ 3 then
    ["V4 FAIL: image_count must be 3, got " ++ toString spec.image_count]
   else []) ++
  (if env.output_dir_exists spec.output_dir then
    ["V5 FAIL: output_dir already exists: " ++ spec.output_dir] else []) ++
  (match spec.baseline_run_id with
   | some rid =>
       if rid = "" then []
       else if env.baseline_dir_exists rid then []
       else ["V6 FAIL: baseline_run_id directory not found: " ++ rid]
   | none => []) ++
  (if env.gemini_api_key then []
   else ["V7 FAIL: GEMINI_API_KEY environment variable not set"])

/-- `benchmark_orchestrator.validate_phase1`: a missing or unparsable
spec short-circuits to a single error; otherwise every check runs and
all failures are reported in one joined `ValidationError`. -/
def validate_phase1 (env : ValidateEnv) : Except String RunSpec :=
  if ¬ env.spec_exists then .error "V1 FAIL: run_spec.json does not exist"
  else
    match env.parsed with
    | .error e => .error e
    | .ok spec =>
        let errors := phase1Errors env spec
        if errors.isEmpty then .ok spec
        else .error (String.intercalate "\n" errors)

/-!  ## benchmark_orchestrator.py: feasibility rank aggregator  -/

/-- The `summary` sub-dict of one entry of `acrue.json`, as read by
`compute_feasibility_rankings`. -/
structure OSummary where
  weighted_total : Option ℚ
  percentage : Option ℚ
  grade : Option String
deriving Repr, DecidableEq

/-- One entry of `acrue.json` as read by `compute_feasibility_rankings`:
`style` is accessed unconditionally, the score fields through `.get`
chains with defaults.  (A non-dict `summary`, tolerated by
`compare_runs.py`, would raise in this function and is not modelled
here.) -/
structure OAcrueResult where
  style : String
  summary : Option OSummary
  total : Option ℚ
  percentage : Option ℚ
  grade : Option String
deriving Repr, DecidableEq

/-- The per-item score record appended to `style_scores[style]`
(the `dimensions` sub-dict feeds only the unmodelled presentational
`reasoning` string and is omitted). -/
structure OScoreRec where
  weighted_total : ℚ
  percentage : ℚ
  grade : String
deriving Repr, DecidableEq

/-- The `.get` fallback chains of `compute_feasibility_rankings`:
`summary.get(k, result.get(k2, default))`. -/
def oScoreRec (r : OAcrueResult) : OScoreRec :=
  { weighted_total := (r.summary.bind (fun s => s.weighted_total)).getD
      (r.total.getD 0)
    percentage := (r.summary.bind (fun s => s.percentage)).getD
      (r.percentage.getD 0)
    grade := (r.summary.bind (fun s => s.grade)).getD (r.grade.getD "F") }

/-- `grade_values` dict of `compute_feasibility_rankings`. -/
def grade_values : List (String × ℚ) :=
  [("A+", 5), ("A", 4), ("B", 3), ("C", 2), ("F", 1)]

/-- One element of `rankings_data` before ranks are assigned
(`reasoning` is presentational and omitted). -/
structure FeasEntry where
  style : String
  avg_score : ℚ
  avg_percentage : ℚ
  avg_grade : String
deriving Repr, DecidableEq

/-- Result record of `compute_feasibility_rankings` (the `judge`,
`timestamp` and `methodology` metadata strings are presentational and
omitted). -/
structure FeasRankings where
  rankings : List (ℕ × FeasEntry)
deriving Repr, DecidableEq

/-- The loop body of `compute_feasibility_rankings` for one style group:
averages, and the grade-ordinal average re-mapped through the
4.5/3.5/2.5/1.5 breakpoints. -/
def feas_row (g : String × List OScoreRec) : FeasEntry :=
  let scores := g.2
  let avg_score := (scores.map (fun s => s.weighted_total)).sum / (scores.length : ℚ)
  let avg_pct := (scores.map (fun s => s.percentage)).sum / (scores.length : ℚ)
  let avg_grade_val :=
    (scores.map (fun s => (alookup s.grade grade_values).getD 1)).sum /
      (scores.length : ℚ)
  let avg_grade :=
    if avg_grade_val ≥ 4.5 then "A+"
    else if avg_grade_val ≥ 3.5 then "A"
    else if avg_grade_val ≥ 2.5 then "B"
    else if avg_grade_val ≥ 1.5 then "C"
    else "F"
  { style := g.1
    avg_score := pyRound 2 avg_score
    avg_percentage := pyRound 1 avg_pct
    avg_grade := avg_grade }

/-- The `style_scores` dict of `compute_feasibility_rankings`: per-item
score records grouped by style in first-occurrence order. -/
def feas_groups (acrue_results : List OAcrueResult) :
    List (String × List OScoreRec) :=
  groupPairs (acrue_results.map (fun r => (r.style, oScoreRec r)))

/-- The `rankings_data` list of `compute_feasibility_rankings`, before
sorting. -/
def feas_data (acrue_results : List OAcrueResult) : List FeasEntry :=
  (feas_groups acrue_results).map feas_row

/-- `benchmark_orchestrator.compute_feasibility_rankings`: group the
ACRUE results by style (dict insertion order = first-occurrence order),
average, derive `avg_grade` by averaging grade ordinals, then
`sort(key=avg_score, reverse=True)` — a stable descending sort, embedded
as `mergeSort` with the flipped non-strict comparison — and assign
1-based ranks. -/
def compute_feasibility_rankings (acrue_results : List OAcrueResult) :
    FeasRankings :=
  let sorted := (feas_data acrue_results).mergeSort
    (fun a b => decide (b.avg_score ≤ a.avg_score))
  { rankings := enumFrom1 1 sorted }

/-!  ## benchmark_orchestrator.py: dual-judge synthesizer  -/

/-- One entry of a judge's `rankings` list as read by
`synthesize_results` (`r["style"]`, `r["rank"]`). -/
structure JudgeRankEntry where
  style : String
  rank : ℚ
deriving Repr, DecidableEq

/-- A judge result file (`gemini.json` / `opus.json`) as read by
`synthesize_results`. -/
structure JudgeRankings where
  rankings : List JudgeRankEntry
deriving Repr, DecidableEq

/-- One element of `final_scores` before the final rank is attached. -/
structure SynthEntry where
  style : String
  gemini_rank : ℚ
  opus_rank : ℚ
  final_score : ℚ
deriving Repr, DecidableEq

/-- Result of `synthesize_results`. -/
structure SynthesisResult where
  winner : String
  rankings : List (ℕ × SynthEntry)
  feasibility_weight : ℚ
  preference_weight : ℚ
deriving Repr, DecidableEq

/-- The loop body of `synthesize_results`: score one declared style,
with the literal default rank `3` (`.get(style, 3)`) when the style is
absent from a judge's rank dict. -/
def synth_row (feasibility_weight preference_weight : ℚ)
    (gemini_ranks opus_ranks : List (String × ℚ)) (style : String) :
    SynthEntry :=
  let g_rank := (alookup style gemini_ranks).getD 3
  let o_rank := (alookup style opus_ranks).getD 3
  { style := style
    gemini_rank := g_rank
    opus_rank := o_rank
    final_score := feasibility_weight * g_rank + preference_weight * o_rank }

/-- The rank dict `{r["style"]: r["rank"] for r in judge["rankings"]}`
(later entries overwrite earlier ones, as in a dict comprehension). -/
def rank_dict (j : JudgeRankings) : List (String × ℚ) :=
  dictOf (j.rankings.map (fun r => (r.style, r.rank)))

/-- The `final_scores` list of `synthesize_results` before sorting: one
`synth_row` per declared style, in `spec.styles` order. -/
def synth_rows (spec : RunSpec) (gemini opus : JudgeRankings) :
    List SynthEntry :=
  spec.styles.map (synth_row spec.feasibility_weight spec.preference_weight
    (rank_dict gemini) (rank_dict opus))

/-- `benchmark_orchestrator.synthesize_results`: build rank dicts from
the two judges, score every declared style with the rank default `3`
for a style absent from a source, stable-sort ascending by
`final_score`, assign 1-based ranks, and pick the winner.  On an empty
`styles` list, `final_scores[0]` raises `IndexError`, modelled as
`none`. -/
def synthesize_results (spec : RunSpec) (gemini opus : JudgeRankings) :
    Option SynthesisResult :=
  let sorted := (synth_rows spec gemini opus).mergeSort
    (fun a b => decide (a.final_score ≤ b.final_score))
  match enumFrom1 1 sorted with
  | [] => none
  | w :: rest =>
      some { winner := w.2.style
             rankings := w :: rest
             feasibility_weight := spec.feasibility_weight
             preference_weight := spec.preference_weight }

/-!  ## compare_runs.py: loading run results  -/

/-- One per-style entry of the `styles` dict built by
`load_run_results`.  Every field is `Option`: `none` models the key
being absent from the dict (for `final_score`/ranks it also covers an
explicit JSON `null`, which nothing downstream distinguishes). -/
structure StyleEntry where
  final_score : Option ℚ
  gemini_rank : Option ℚ
  opus_rank : Option ℚ
  avg_score : Option ℚ
  avg_percentage : Option ℚ
  avg_grade : Option String
deriving Repr, DecidableEq

/-- The `{}` a style entry starts from. -/
def StyleEntry.empty : StyleEntry :=
  { final_score := none, gemini_rank := none, opus_rank := none,
    avg_score := none, avg_percentage := none, avg_grade := none }

/-- One entry of `synthesis.json`'s `rankings` as read by
`load_run_results` (read with `.get`, hence `Option`). -/
structure CSynthRanking where
  style : String
  final_score : Option ℚ
  gemini_rank : Option ℚ
  opus_rank : Option ℚ
deriving Repr, DecidableEq

/-- `synthesis.json` as read by `load_run_results`. -/
structure CSynthFile where
  rankings : List CSynthRanking
deriving Repr, DecidableEq

/-- One entry of `gemini.json`'s `rankings` as read by
`load_run_results`. -/
structure CGemRanking where
  style : String
  avg_score : Option ℚ
  avg_percentage : Option ℚ
  avg_grade : Option String
deriving Repr, DecidableEq

/-- `gemini.json` as read by `load_run_results`. -/
structure CGemFile where
  rankings : List CGemRanking
deriving Repr, DecidableEq

/-- The `summary` field of an `acrue.json` entry: absent, a dict, or a
plain string (`load_run_results` branches on `isinstance(summary, dict)`;
an absent key yields `{}`, which takes the dict branch with all
defaults). -/
inductive CSummaryField where
  | missing
  | dict (weighted_total : Option ℚ) (percentage : Option ℚ) (grade : Option String)
  | str (s : String)
deriving Repr, DecidableEq

/-- One entry of `acrue.json` as read by `load_run_results`. -/
structure CAcrueEntry where
  style : String
  summary : CSummaryField
  percentage : Option ℚ
  weighted_total : Option ℚ
  grade : Option String
deriving Repr, DecidableEq

/-- The per-entry score record `load_run_results` appends to
`style_scores[style]`. -/
structure CScoreRec where
  percentage : ℚ
  weighted_total : ℚ
  grade : String
deriving Repr, DecidableEq

/-- The dict-vs-string `summary` handling of `load_run_results`. -/
def cScoreRec (e : CAcrueEntry) : CScoreRec :=
  match e.summary with
  | .missing => { percentage := 0, weighted_total := 0, grade := "N/A" }
  | .dict wt pct g =>
      { percentage := pct.getD 0, weighted_total := wt.getD 0,
        grade := g.getD "N/A" }
  | .str _ =>
      { percentage := e.percentage.getD 0,
        weighted_total := e.weighted_total.getD 0,
        grade := e.grade.getD "N/A" }

/-- A run directory on disk, as far as `load_run_results` reads it:
which of the three result files exist and their parsed contents. -/
structure RunDir where
  dirExists : Bool
  synthesis : Option CSynthFile
  gemini : Option CGemFile
  acrue : Option (List CAcrueEntry)
  run_spec : Option RunSpec
deriving Repr

/-- Result of `load_run_results`. -/
structure RunResults where
  run_id : String
  styles : List (String × StyleEntry)
  spec : Option RunSpec
deriving Repr

/-- `compare_runs.load_run_results`: build the per-style dict from up to
three sources with first-write-wins precedence — `synthesis.json`
(assignment of a fresh record with only the three rank fields),
`gemini.json` (`update` of the three average fields), `acrue.json`
(`setdefault` of the three average fields).  A missing run directory
raises `FileNotFoundError`, modelled as `none`. -/
def load_run_results (run_id : String) (d : RunDir) : Option RunResults :=
  if ¬ d.dirExists then none
  else
    let s0 : List (String × StyleEntry) := []
    let s1 := match d.synthesis with
      | none => s0
      | some syn => syn.rankings.foldl (fun st r =>
          upsert st r.style
            { StyleEntry.empty with
                final_score := r.final_score
                gemini_rank := r.gemini_rank
                opus_rank := r.opus_rank }) s0
    let s2 := match d.gemini with
      | none => s1
      | some gf => gf.rankings.foldl (fun st r =>
          let e := (alookup r.style st).getD StyleEntry.empty
          upsert st r.style
            { e with
                avg_score := some (r.avg_score.getD 0)
                avg_percentage := some (r.avg_percentage.getD 0)
                avg_grade := some (r.avg_grade.getD "N/A") }) s1
    let s3 := match d.acrue with
      | none => s2
      | some entries =>
          let style_scores := groupPairs
            ((entries.filter (fun e => e.style != "")).map
              (fun e => (e.style, cScoreRec e)))
          style_scores.foldl (fun st g =>
            let e := (alookup g.1 st).getD StyleEntry.empty
            let avg_pct := (g.2.map (fun s => s.percentage)).sum / (g.2.length : ℚ)
            let avg_wt := (g.2.map (fun s => s.weighted_total)).sum / (g.2.length : ℚ)
            upsert st g.1
              { e with
                  avg_score := some (e.avg_score.getD (pyRound 2 avg_wt))
                  avg_percentage :=
                    some (e.avg_percentage.getD (pyRound 1 avg_pct))
                  avg_grade := some (e.avg_grade.getD (get_grade avg_pct)) }) s2
    some { run_id := run_id, styles := s3, spec := d.run_spec }

/-!  ## compare_runs.py: the comparator  -/

/-- One element of the comparison's `styles` list. -/
structure StyleDelta where
  style : String
  current_pct : ℚ
  baseline_pct : ℚ
  delta_pct : ℚ
  current_score : ℚ
  baseline_score : ℚ
  delta_score : ℚ
  current_grade : String
  baseline_grade : String
  status : String
deriving Repr, DecidableEq

/-- The comparison's `summary` dict. -/
structure ComparisonSummary where
  improved : ℕ
  regressed : ℕ
  unchanged : ℕ
  overall_verdict : String
deriving Repr, DecidableEq

/-- Result of `compare_runs` (`timestamp` is the wall clock passed in
as `now`). -/
structure Comparison where
  current_run_id : String
  baseline_run_id : String
  timestamp : String
  styles : List StyleDelta
  summary : ComparisonSummary
deriving Repr, DecidableEq

/-- `compare_runs.compare_runs`, with the two `load_run_results` calls
factored into the already-loaded arguments (they are file IO).  The
loop counters `improved`/`regressed`/`unchanged` are the status counts
of the produced list. -/
def compare_runs (now : String) (current baseline : RunResults) : Comparison :=
  let all_styles :=
    ((current.styles.map Prod.fst) ++ (baseline.styles.map Prod.fst)).dedup.mergeSort
      (fun a b => decide (a ≤ b))
  let style_deltas := all_styles.map (fun style =>
    let cur := (alookup style current.styles).getD StyleEntry.empty
    let base := (alookup style baseline.styles).getD StyleEntry.empty
    let cur_pct := cur.avg_percentage.getD 0
    let base_pct := base.avg_percentage.getD 0
    let cur_score := cur.avg_score.getD 0
    let base_score := base.avg_score.getD 0
    let delta_pct := pyRound 1 (cur_pct - base_pct)
    let delta_score := pyRound 2 (cur_score - base_score)
    let status :=
      if |delta_pct| < 1/2 then "unchanged"
      else if 0 < delta_pct then "improved"
      else "REGRESSION"
    { style := style
      current_pct := cur_pct
      baseline_pct := base_pct
      delta_pct := delta_pct
      current_score := cur_score
      baseline_score := base_score
      delta_score := delta_score
      current_grade := cur.avg_grade.getD "N/A"
      baseline_grade := base.avg_grade.getD "N/A"
      status := status
      : StyleDelta })
  let improved := style_deltas.countP (fun d => d.status == "improved")
  let regressed := style_deltas.countP (fun d => d.status == "REGRESSION")
  let unchanged := style_deltas.countP (fun d => d.status == "unchanged")
  let verdict :=
    if 0 < regressed then "REGRESSION_DETECTED"
    else if 0 < improved then "IMPROVED"
    else "UNCHANGED"
  { current_run_id := current.run_id
    baseline_run_id := baseline.run_id
    timestamp := now
    styles := style_deltas
    summary :=
      { improved := improved, regressed := regressed, unchanged := unchanged,
        overall_verdict := verdict } }

/-!  ## benchmark_orchestrator.py: the Excel persistence ledger  -/

/-- One summary row of the ledger (column order of
`_create_summary_headers` / `summary_data`). -/
structure SummaryRowR where
  run_id : String
  timestamp : String
  pipeline_version : String
  acrue_version : String
  styles : String
  image_count : ℤ
  winner : String
  gemini_top : Option String
  opus_top : Option String
  artifacts_path : String
  vs_baseline : String
  regressions : ℕ
  improvements : ℕ
deriving Repr, DecidableEq

/-- The header row written by `_create_summary_headers`. -/
def summaryHeaders : List String :=
  ["run_id", "timestamp", "pipeline_version", "acrue_version", "styles",
   "image_count", "winner", "gemini_top", "opus_top", "artifacts_path",
   "vs_baseline", "regressions", "improvements"]

/-- The Summary worksheet: header row plus data rows (row 2 onward). -/
structure SummaryData where
  header : List String
  rows : List SummaryRowR
deriving Repr, DecidableEq

/-- A per-run detail worksheet: the cells `persist_to_excel` writes. -/
structure DetailData where
  run_id : String
  winner : String
  rankings : List (ℕ × SynthEntry)
deriving Repr, DecidableEq

/-- A worksheet is either the summary grid or a per-run detail grid. -/
inductive Sheet where
  | summarySheet (d : SummaryData)
  | detailSheet (d : DetailData)
deriving Repr, DecidableEq

/-- A workbook: its sheets with their names, in sheet order
(openpyxl keeps sheet titles unique). -/
structure Workbook where
  sheets : List (String × Sheet)
deriving Repr, DecidableEq

/-- `Workbook()` with the active sheet retitled `Summary` and headers
written. -/
def freshWorkbook : Workbook :=
  ⟨[("Summary", .summarySheet ⟨summaryHeaders, []⟩)]⟩

/-- The ledger file on disk: a loadable `.xlsx`, or any other content
(OLE2 `.xls`, corrupt zip, ...) which `_is_valid_xlsx` rejects. -/
inductive LedgerFile where
  | xlsx (wb : Workbook)
  | foreign (blob : String)
deriving Repr, DecidableEq

/-- `benchmark_orchestrator._is_valid_xlsx`: true exactly when the file
is a loadable modern `.xlsx` (the OLE2-magic and `load_workbook`
failures are folded into the `foreign` constructor). -/
def is_valid_xlsx : LedgerFile → Bool
  | .xlsx _ => true
  | .foreign _ => false

/-- The bit of file system `persist_to_excel` touches: `EXCEL_PATH` and
its `.xls.bak` backup path. -/
structure FsState where
  excel : Option LedgerFile
  backup : Option LedgerFile
deriving Repr, DecidableEq

/-- Header migration: if column 11 of row 1 is empty (here: the header
is shorter than 11 columns), write the three comparison column names at
columns 11–13. -/
def migrateHeader (h : List String) : List String :=
  if h.length < 11 then
    (h ++ List.replicate (10 - h.length) "") ++
      ["vs_baseline", "regressions", "improvements"]
  else h

/-- `if "Summary" in wb.sheetnames ... else create_sheet("Summary", 0)`
followed by `_create_summary_headers`. -/
def ensureSummary (wb : Workbook) : Workbook :=
  if wb.sheets.any (fun p => p.1 == "Summary") then wb
  else ⟨("Summary", .summarySheet ⟨summaryHeaders, []⟩) :: wb.sheets⟩

/-- Apply `f` to the Summary worksheet (cell writes through
`wb["Summary"]`).  Writing summary cells into a sheet that is not a
summary grid (only reachable when a run was named `Summary`) is left as
the identity. -/
def mapSummarySheet (wb : Workbook) (f : SummaryData → SummaryData) : Workbook :=
  ⟨wb.sheets.map (fun p =>
    if p.1 = "Summary" then
      match p.2 with
      | .summarySheet d => (p.1, .summarySheet (f d))
      | s => (p.1, s)
    else p)⟩

/-- The `summary_data` row built by `persist_to_excel` (`gemini_top` /
`opus_top` keep the last rank-1 style found by the loop, or `None`). -/
def summaryRowFor (now : String) (spec : RunSpec) (syn : SynthesisResult)
    (comp : Option Comparison) : SummaryRowR :=
  let gemini_top := syn.rankings.foldl
    (fun acc r => if r.2.gemini_rank = 1 then some r.2.style else acc) none
  let opus_top := syn.rankings.foldl
    (fun acc r => if r.2.opus_rank = 1 then some r.2.style else acc) none
  { run_id := spec.run_id
    timestamp := now
    pipeline_version := spec.pipeline_version
    acrue_version := spec.acrue_version
    styles := String.intercalate ", " spec.styles
    image_count := spec.image_count
    winner := syn.winner
    gemini_top := gemini_top
    opus_top := opus_top
    artifacts_path := spec.output_dir
    vs_baseline := match comp with | some c => c.baseline_run_id | none => ""
    regressions := match comp with | some c => c.summary.regressed | none => 0
    improvements := match comp with | some c => c.summary.improved | none => 0 }

/-- The detail sheet written for this run. -/
def detailFor (spec : RunSpec) (syn : SynthesisResult) : DetailData :=
  { run_id := spec.run_id, winner := syn.winner, rankings := syn.rankings }

/-- The workbook transformation of `persist_to_excel` after the file was
opened: ensure/migrate the Summary sheet, append the summary row, then
delete any sheet named `run_id` and append a fresh detail sheet. -/
def persist_wb (now : String) (spec : RunSpec) (syn : SynthesisResult)
    (comp : Option Comparison) (wb : Workbook) : Workbook :=
  let wb1 := ensureSummary wb
  let wb2 := mapSummarySheet wb1 (fun d => { d with header := migrateHeader d.header })
  let row := summaryRowFor now spec syn comp
  let wb3 := mapSummarySheet wb2 (fun d => { d with rows := d.rows ++ [row] })
  ⟨(wb3.sheets.filter (fun p => p.1 != spec.run_id)) ++
    [(spec.run_id, .detailSheet (detailFor spec syn))]⟩

/-- `benchmark_orchestrator.persist_to_excel`: back up and unlink a
present-but-invalid ledger file, open the existing workbook or create a
fresh one, apply the workbook transformation, save.  The function is
total: no branch raises. -/
def persist_to_excel (now : String) (spec : RunSpec) (syn : SynthesisResult)
    (comp : Option Comparison) (st : FsState) : FsState :=
  let st1 :=
    match st.excel with
    | some f =>
        if is_valid_xlsx f then st
        else { excel := none, backup := some f }
    | none => st
  let wb :=
    match st1.excel with
    | some (.xlsx wb) => wb
    | _ => freshWorkbook
  { st1 with excel := some (.xlsx (persist_wb now spec syn comp wb)) }

/-- Observation: the data rows of the Summary sheet of a workbook. -/
def summaryRowsOf (wb : Workbook) : List SummaryRowR :=
  match alookup "Summary" wb.sheets with
  | some (.summarySheet d) => d.rows
  | _ => []

/-- Observation: how many summary rows of the on-disk ledger carry the
given `run_id` (0 when no loadable ledger exists). -/
def summaryRowsForRun (st : FsState) (rid : String) : ℕ :=
  match st.excel with
  | some (.xlsx wb) => ((summaryRowsOf wb).filter (fun r => r.run_id == rid)).length
  | _ => 0

/-- Observation: how many sheets of the on-disk ledger are named
`rid`. -/
def sheetsNamed (st : FsState) (rid : String) : ℕ :=
  match st.excel with
  | some (.xlsx wb) => (wb.sheets.filter (fun p => p.1 == rid)).length
  | _ => 0

/-- Workbook well-formedness: sheet names are unique (an openpyxl
invariant) and any sheet named `Summary` is a summary grid. -/
def wbOK (wb : Workbook) : Prop :=
  (wb.sheets.map Prod.fst).Nodup ∧
    ∀ s, ("Summary", s) ∈ wb.sheets → ∃ d, s = Sheet.summarySheet d

/-- File-system well-formedness: if a loadable ledger exists it is a
well-formed workbook. -/
def fsOK (st : FsState) : Prop :=
  ∀ wb, st.excel = some (.xlsx wb) → wbOK wb


/-- In-range judge response (`dimension_score = 5` everywhere): witness
input for the amended scoring-bounds claim. -/
def fullDim : DimInput :=
  { passed := some 5, total := some 5, avg_confidence := some 5,
    dimension_score := some 5, assertions := [] }

/-- The five-dimension judge response built from `fullDim`. -/
def fullDims : List (String × DimInput) :=
  [("accuracy", fullDim), ("completeness", fullDim), ("relevance", fullDim),
   ("usefulness", fullDim), ("exceptional", fullDim)]

/-- Current run of the §8 comparator example: `Anime` at 75.0%. -/
def curRunEx : RunResults :=
  { run_id := "Run_2026_02_04"
    styles := [("Anime", { StyleEntry.empty with avg_percentage := some 75 })]
    spec := none }

/-- Baseline run of the §8 comparator example: `Anime` at 80.0%. -/
def baseRunEx : RunResults :=
  { run_id := "Run_2026_02_03"
    styles := [("Anime", { StyleEntry.empty with avg_percentage := some 80 })]
    spec := none }


/-- A parsed spec with a wrong-sized styles list (used to witness that
the validator reports V3 and V7 failures together). -/
def specEx : RunSpec :=
  { run_id := "Run_2026_02_04"
    styles := ["Anime", "Pop Art"]
    image_count := 3
    output_dir := "runs/Run_2026_02_04"
    baseline_run_id := some "Run_2026_02_03_baseline"
    feasibility_weight := 0.6
    preference_weight := 0.4
    pipeline_version := "1.1.0"
    acrue_version := "v3" }

/-- A validation environment for `specEx`: parse succeeds, the baseline
directory exists, the output directory does not, but the credential is
missing. -/
def envEx : ValidateEnv :=
  { spec_exists := true
    parsed := .ok specEx
    output_dir_exists := fun _ => false
    baseline_dir_exists := fun _ => true
    gemini_api_key := false }

/-- A three-style spec used by the synthesizer examples. -/
def spec3Ex : RunSpec :=
  { run_id := "Run_2026_02_04"
    styles := ["Anime", "Pop Art", "Storybook"]
    image_count := 3
    output_dir := "runs/Run_2026_02_04"
    baseline_run_id := none
    feasibility_weight := 0.6
    preference_weight := 0.4
    pipeline_version := "1.1.0"
    acrue_version := "v3" }

/-- A partial feasibility ranking: `Storybook` is absent. -/
def gemEx : JudgeRankings :=
  { rankings := [{ style := "Anime", rank := 1 }, { style := "Pop Art", rank := 2 }] }

/-- A complete preference ranking. -/
def opusEx : JudgeRankings :=
  { rankings := [{ style := "Pop Art", rank := 1 }, { style := "Anime", rank := 2 },
                 { style := "Storybook", rank := 3 }] }


/-- Two single-item styles with identical scores, `Anime` first: tie
input for the aggregator tie-break claim. -/
def feasEx : List OAcrueResult :=
  [{ style := "Anime"
     summary := some { weighted_total := some 20, percentage := some 80,
                       grade := some "A" }
     total := none, percentage := none, grade := none },
   { style := "Pop Art"
     summary := some { weighted_total := some 20, percentage := some 80,
                       grade := some "A" }
     total := none, percentage := none, grade := none }]

/-- Modelled on §4.3 of the specification: map each item grade to its
ordinal, average the ordinals, and re-map the average through the
4.5/3.5/2.5/1.5 breakpoints.  Stated separately so the aggregator's
`avg_grade` can be compared against it. -/
def spec_avg_grade (grades : List String) : String :=
  let avg := (grades.map (fun g => (alookup g grade_values).getD 1)).sum /
    (grades.length : ℚ)
  if avg ≥ 4.5 then "A+"
  else if avg ≥ 3.5 then "A"
  else if avg ≥ 2.5 then "B"
  else if avg ≥ 1.5 then "C"
  else "F"

/-- One style with grades `A+` and `C` (percentages 95 and 61): ordinal
average 3.5 maps to `A`, while the percentage average 78 would map to
`B`. -/
def gradeEx : List OAcrueResult :=
  [{ style := "Anime"
     summary := some { weighted_total := some 23.75, percentage := some 95,
                       grade := some "A+" }
     total := none, percentage := none, grade := none },
   { style := "Anime"
     summary := some { weighted_total := some 15.25, percentage := some 61,
                       grade := some "C" }
     total := none, percentage := none, grade := none }]


/-- Observation: the header row of the Summary sheet of a workbook. -/
def headerOf (wb : Workbook) : List String :=
  match alookup "Summary" wb.sheets with
  | some (.summarySheet d) => d.header
  | _ => []


/-- A small synthesis result used by the persistence witnesses. -/
def synEx : SynthesisResult :=
  { winner := "Pop Art"
    rankings := [(1, { style := "Pop Art", gemini_rank := 1, opus_rank := 1,
                       final_score := 1 }),
                 (2, { style := "Anime", gemini_rank := 2, opus_rank := 2,
                       final_score := 2 })]
    feasibility_weight := 0.6
    preference_weight := 0.4 }

/-- A non-xlsx ledger file (e.g. an OLE2 `.xls`). -/
def oldXls : LedgerFile := .foreign "OLE2 blob"


/-- A run directory holding only `synthesis.json` (no `gemini.json`, no
`acrue.json`). -/
def synOnlyDir : RunDir :=
  { dirExists := true
    synthesis := some
      { rankings := [{ style := "Anime", final_score := some 1.4,
                       gemini_rank := some 1, opus_rank := some 2 },
                     { style := "Pop Art", final_score := some 1.6,
                       gemini_rank := some 2, opus_rank := some 1 }] }
    gemini := none
    acrue := none
    run_spec := none }

/-!  ## Theorems  -/

theorem suppliedScore_def (dims : List (String × DimInput)) (name : String) :
    ((alookup name dims).getD DimInput.empty).dimension_score.getD 0 =
      suppliedScore dims name := rfl

theorem pyRoundInt_mono {x y : ℚ} (h : x ≤ y) : pyRoundInt x ≤ pyRoundInt y := by
  have hf : ⌊x⌋ ≤ ⌊y⌋ := Int.floor_mono h
  rcases eq_or_lt_of_le hf with heq | hlt
  · have hfr : x - (⌊x⌋ : ℚ) ≤ y - (⌊y⌋ : ℚ) := by
      rw [← heq]; linarith
    simp only [pyRoundInt]
    rw [← heq] at hfr ⊢
    split_ifs <;> first | omega | (exfalso; linarith)
  · have hx : pyRoundInt x ≤ ⌊x⌋ + 1 := by
      simp only [pyRoundInt]; split_ifs <;> omega
    have hy : ⌊y⌋ ≤ pyRoundInt y := by
      simp only [pyRoundInt]; split_ifs <;> omega
    omega

theorem pyRoundInt_intCast (n : ℤ) : pyRoundInt (n : ℚ) = n := by
  simp [pyRoundInt]

theorem pyRound_mono (n : ℕ) {x y : ℚ} (h : x ≤ y) : pyRound n x ≤ pyRound n y := by
  unfold pyRound
  have h2 : (pyRoundInt (x * 10 ^ n) : ℚ) ≤ (pyRoundInt (y * 10 ^ n) : ℚ) := by
    exact_mod_cast pyRoundInt_mono (mul_le_mul_of_nonneg_right h (by positivity))
  gcongr

/-- `pyRound` fixes any rational that is exact at `n` decimal digits. -/
theorem pyRound_eq_self {n : ℕ} {q : ℚ} (m : ℤ) (hm : q * 10 ^ n = (m : ℚ)) :
    pyRound n q = q := by
  have h10 : (10 : ℚ) ^ n ≠ 0 := by positivity
  unfold pyRound
  rw [hm, pyRoundInt_intCast, ← hm, mul_div_assoc, div_self h10, mul_one]

theorem pyRound_le {n : ℕ} {x c : ℚ} (m : ℤ) (hm : c * 10 ^ n = (m : ℚ))
    (h : x ≤ c) : pyRound n x ≤ c :=
  (pyRound_mono n h).trans_eq (pyRound_eq_self m hm)

theorem le_pyRound {n : ℕ} {x c : ℚ} (m : ℤ) (hm : c * 10 ^ n = (m : ℚ))
    (h : c ≤ x) : c ≤ pyRound n x :=
  (pyRound_eq_self m hm).symm.trans_le (pyRound_mono n h)

/-- Claim C1 (counterexample): the scorer does not clamp the
judge-supplied `dimension_score` to `[0,5]`.  With `dimension_score = 10`
reported on every dimension, `weighted_total` comes out `50 > 25` and
`percentage` comes out `200 ∉ [0,100]`. -/
theorem C1_no_clamp_counterexample :
    (calculate_v3_summary (calculate_v3_scores overDims)).weighted_total = 50 ∧
    (calculate_v3_summary (calculate_v3_scores overDims)).percentage = 200 ∧
    ¬ (calculate_v3_summary (calculate_v3_scores overDims)).weighted_total ≤ 25 ∧
    ¬ (calculate_v3_summary (calculate_v3_scores overDims)).percentage ≤ 100 := by
  norm_num [calculate_v3_summary, calculate_v3_scores, overDims, overDim,
    WEIGHTS, alookup, MAX_SCORE, pyRound, pyRoundInt]

/-- Claim C1 (amended): no clamping is performed, but whenever every
judge-supplied `dimension_score` already lies in `[0,5]`, the resulting
`weighted_total = Σ dimension_score_i × weight_i` lies in `[0,25]` and the
resulting `percentage` lies in `[0,100]`. -/
theorem C1_score_bounds (dims : List (String × DimInput))
    (h : ∀ name, 0 ≤ suppliedScore dims name ∧ suppliedScore dims name ≤ 5) :
    0 ≤ (calculate_v3_summary (calculate_v3_scores dims)).weighted_total ∧
    (calculate_v3_summary (calculate_v3_scores dims)).weighted_total ≤ 25 ∧
    0 ≤ (calculate_v3_summary (calculate_v3_scores dims)).percentage ∧
    (calculate_v3_summary (calculate_v3_scores dims)).percentage ≤ 100 := by
  have hsum :
      0 ≤ ((calculate_v3_scores dims).map (fun s => s.2.weighted_score)).sum ∧
      ((calculate_v3_scores dims).map (fun s => s.2.weighted_score)).sum ≤ 25 := by
    simp only [calculate_v3_scores, WEIGHTS, List.map_cons, List.map_nil,
      List.sum_cons, List.sum_nil, suppliedScore_def]
    obtain ⟨ha0, ha5⟩ := h "accuracy"
    obtain ⟨hc0, hc5⟩ := h "completeness"
    obtain ⟨hr0, hr5⟩ := h "relevance"
    obtain ⟨hu0, hu5⟩ := h "usefulness"
    obtain ⟨he0, he5⟩ := h "exceptional"
    have b1 := pyRound_le (n := 2) (c := 5)
      (x := suppliedScore dims "accuracy" * 1) 500 (by norm_num) (by linarith)
    have b2 := pyRound_le (n := 2) (c := 5)
      (x := suppliedScore dims "completeness" * 1) 500 (by norm_num) (by linarith)
    have b3 := pyRound_le (n := 2) (c := 5/2)
      (x := suppliedScore dims "relevance" * (1/2)) 250 (by norm_num) (by linarith)
    have b4 := pyRound_le (n := 2) (c := 5/2)
      (x := suppliedScore dims "usefulness" * (1/2)) 250 (by norm_num) (by linarith)
    have b5 := pyRound_le (n := 2) (c := 10)
      (x := suppliedScore dims "exceptional" * 2) 1000 (by norm_num) (by linarith)
    have c1 := le_pyRound (n := 2) (c := 0)
      (x := suppliedScore dims "accuracy" * 1) 0 (by norm_num) (by linarith)
    have c2 := le_pyRound (n := 2) (c := 0)
      (x := suppliedScore dims "completeness" * 1) 0 (by norm_num) (by linarith)
    have c3 := le_pyRound (n := 2) (c := 0)
      (x := suppliedScore dims "relevance" * (1/2)) 0 (by norm_num) (by linarith)
    have c4 := le_pyRound (n := 2) (c := 0)
      (x := suppliedScore dims "usefulness" * (1/2)) 0 (by norm_num) (by linarith)
    have c5 := le_pyRound (n := 2) (c := 0)
      (x := suppliedScore dims "exceptional" * 2) 0 (by norm_num) (by linarith)
    norm_num at b1 b2 b3 b4 b5 c1 c2 c3 c4 c5 ⊢
    constructor <;> linarith
  constructor
  · exact le_pyRound (n := 2) 0 (by norm_num) hsum.1
  refine ⟨pyRound_le (n := 2) 2500 (by norm_num) hsum.2, ?_, ?_⟩
  · apply le_pyRound (n := 1) 0 (by norm_num)
    have := hsum.1
    simp only [calculate_v3_summary, MAX_SCORE]
    positivity
  · apply pyRound_le (n := 1) 1000 (by norm_num)
    simp only [calculate_v3_summary, MAX_SCORE]
    have := hsum.2
    linarith



/-- Witness for the amended scoring-bounds claim at a concrete in-range
input (`dimension_score = 5` everywhere). -/
theorem C1_score_bounds_witness :
    0 ≤ (calculate_v3_summary (calculate_v3_scores fullDims)).weighted_total ∧
    (calculate_v3_summary (calculate_v3_scores fullDims)).weighted_total ≤ 25 ∧
    0 ≤ (calculate_v3_summary (calculate_v3_scores fullDims)).percentage ∧
    (calculate_v3_summary (calculate_v3_scores fullDims)).percentage ≤ 100 :=
  C1_score_bounds fullDims (by
    intro name
    constructor <;>
      (simp only [suppliedScore, alookup, fullDims, fullDim, DimInput.empty]
       split_ifs <;> norm_num))

set_option maxRecDepth 4096 in
/-- Claim C2 (counterexample): at the §8 example input
(baseline 80.0%, current 75.0%) the per-candidate status string produced
by `compare_runs` is `"REGRESSION"`, not the claimed `"regression"`
(the aggregate verdict `"REGRESSION_DETECTED"` is as claimed). -/
theorem C2_status_counterexample :
    ((compare_runs "" curRunEx baseRunEx).styles.map (fun d => d.status)) =
      ["REGRESSION"] ∧
    ((compare_runs "" curRunEx baseRunEx).styles.map (fun d => d.delta_pct)) =
      [-5] ∧
    (compare_runs "" curRunEx baseRunEx).summary.overall_verdict =
      "REGRESSION_DETECTED" ∧
    "REGRESSION" ≠ "regression" := by
  refine ⟨?_, ?_, ?_, by decide⟩ <;>
    norm_num [compare_runs, curRunEx, baseRunEx, alookup, StyleEntry.empty,
      pyRound, pyRoundInt, List.dedup_cons_of_mem,
      List.dedup_cons_of_not_mem, -Int.self_sub_floor]

/-- Claim C2 (amended): each candidate's status is `"unchanged"` when
`|delta_pct| < 0.5`, else `"improved"` when `delta_pct > 0`, else
`"REGRESSION"` (upper case), where
`delta_pct = round(current_pct - baseline_pct, 1)`; and the aggregate
`overall_verdict` is `"REGRESSION_DETECTED"` if any candidate regressed,
else `"IMPROVED"` if any improved, else `"UNCHANGED"`. -/
theorem C2_status_and_verdict (now : String) (cur base : RunResults) :
    (∀ d ∈ (compare_runs now cur base).styles,
        d.delta_pct = pyRound 1 (d.current_pct - d.baseline_pct) ∧
        d.status =
          (if |d.delta_pct| < 1/2 then "unchanged"
           else if 0 < d.delta_pct then "improved" else "REGRESSION")) ∧
    ((∃ d ∈ (compare_runs now cur base).styles, d.status = "REGRESSION") →
        (compare_runs now cur base).summary.overall_verdict =
          "REGRESSION_DETECTED") ∧
    ((∀ d ∈ (compare_runs now cur base).styles, d.status ≠ "REGRESSION") →
      (((∃ d ∈ (compare_runs now cur base).styles, d.status = "improved") →
          (compare_runs now cur base).summary.overall_verdict = "IMPROVED") ∧
       ((∀ d ∈ (compare_runs now cur base).styles, d.status ≠ "improved") →
          (compare_runs now cur base).summary.overall_verdict =
            "UNCHANGED"))) := by
  refine ⟨?_, ?_, ?_⟩
  · intro d hd
    simp only [compare_runs, List.mem_map] at hd
    obtain ⟨s, _, rfl⟩ := hd
    exact ⟨rfl, rfl⟩
  · rintro ⟨d, hd, hdr⟩
    simp only [compare_runs, List.mem_map] at hd ⊢
    have hp : 0 < List.countP (fun d => d.status == "REGRESSION")
        ((compare_runs now cur base).styles) := by
      refine List.countP_pos_iff.mpr ⟨d, ?_, by simp [hdr]⟩
      simp only [compare_runs, List.mem_map]
      exact hd
    simp only [compare_runs] at hp
    rw [if_pos hp]
  · intro hall
    have hz : List.countP (fun d => d.status == "REGRESSION")
        ((compare_runs now cur base).styles) = 0 := by
      refine List.countP_eq_zero.mpr ?_
      intro d hd
      simp [hall d hd]
    simp only [compare_runs] at hz
    constructor
    · rintro ⟨d, hd, hdi⟩
      have hp : 0 < List.countP (fun d => d.status == "improved")
          ((compare_runs now cur base).styles) := by
        refine List.countP_pos_iff.mpr ⟨d, hd, by simp [hdi]⟩
      simp only [compare_runs, List.mem_map] at hp ⊢
      rw [if_neg (by omega), if_pos hp]
    · intro hni
      have hzi : List.countP (fun d => d.status == "improved")
          ((compare_runs now cur base).styles) = 0 := by
        refine List.countP_eq_zero.mpr ?_
        intro d hd
        simp [hni d hd]
      simp only [compare_runs] at hzi
      simp only [compare_runs, List.mem_map]
      rw [if_neg (by omega), if_neg (by omega)]

/-- Witness for the amended comparator claim at the §8 example input. -/
theorem C2_status_and_verdict_witness :
    (∀ d ∈ (compare_runs "" curRunEx baseRunEx).styles,
        d.delta_pct = pyRound 1 (d.current_pct - d.baseline_pct) ∧
        d.status =
          (if |d.delta_pct| < 1/2 then "unchanged"
           else if 0 < d.delta_pct then "improved" else "REGRESSION")) ∧
    ((∃ d ∈ (compare_runs "" curRunEx baseRunEx).styles,
        d.status = "REGRESSION") →
        (compare_runs "" curRunEx baseRunEx).summary.overall_verdict =
          "REGRESSION_DETECTED") ∧
    ((∀ d ∈ (compare_runs "" curRunEx baseRunEx).styles,
        d.status ≠ "REGRESSION") →
      (((∃ d ∈ (compare_runs "" curRunEx baseRunEx).styles,
          d.status = "improved") →
          (compare_runs "" curRunEx baseRunEx).summary.overall_verdict =
            "IMPROVED") ∧
       ((∀ d ∈ (compare_runs "" curRunEx baseRunEx).styles,
          d.status ≠ "improved") →
          (compare_runs "" curRunEx baseRunEx).summary.overall_verdict =
            "UNCHANGED"))) :=
  C2_status_and_verdict "" curRunEx baseRunEx


theorem enumFrom1_mem {a : α} :
    ∀ (l : List α) (i : ℕ), a ∈ l → ∃ r, (r, a) ∈ enumFrom1 i l
  | [], _, h => absurd h (List.not_mem_nil a)
  | b :: bs, i, h => by
    rcases List.mem_cons.mp h with rfl | h'
    · exact ⟨i, List.mem_cons_self _ _⟩
    · obtain ⟨r, hr⟩ := enumFrom1_mem bs (i + 1) h'
      exact ⟨r, List.mem_cons_of_mem _ hr⟩

/-- Claim C3: with a present, parsable spec, validation runs all of
V3–V7 and collects every failure (each failing check contributes exactly
one message to the aggregate error, which joins all of them); success
returns the spec and is equivalent to all checks passing; only a missing
or unparsable spec short-circuits to a single error. -/
theorem C3_validate_collects_all (env : ValidateEnv) :
    (env.spec_exists = false →
      validate_phase1 env = .error "V1 FAIL: run_spec.json does not exist") ∧
    (∀ e, env.spec_exists = true → env.parsed = .error e →
      validate_phase1 env = .error e) ∧
    (∀ spec, env.spec_exists = true → env.parsed = .ok spec →
      ((validate_phase1 env = .ok spec ↔
          (spec.styles.length = 3 ∧ spec.image_count = 3 ∧
           env.output_dir_exists spec.output_dir = false ∧
           (∀ rid, spec.baseline_run_id = some rid → rid ≠ "" →
              env.baseline_dir_exists rid = true) ∧
           env.gemini_api_key = true)) ∧
       (phase1Errors env spec ≠ [] →
         validate_phase1 env =
           .error (String.intercalate "\n" (phase1Errors env spec))) ∧
       ((phase1Errors env spec).length =
         (if spec.styles.length ≠ 3 then 1 else 0) +
         (if spec.image_count ≠ 3 then 1 else 0) +
         (if env.output_dir_exists spec.output_dir then 1 else 0) +
         (match spec.baseline_run_id with
          | some rid =>
              if rid = "" then 0
              else if env.baseline_dir_exists rid then 0 else 1
          | none => 0) +
         (if env.gemini_api_key then 0 else 1)))) := by
  refine ⟨?_, ?_, ?_⟩
  · intro h
    simp [validate_phase1, h]
  · intro e h1 h2
    simp [validate_phase1, h1, h2]
  · intro spec h1 h2
    have hval : validate_phase1 env =
        (if (phase1Errors env spec).isEmpty then .ok spec
         else .error (String.intercalate "\n" (phase1Errors env spec))) := by
      simp [validate_phase1, h1, h2]
    have hempty : phase1Errors env spec = [] ↔
        (spec.styles.length = 3 ∧ spec.image_count = 3 ∧
         env.output_dir_exists spec.output_dir = false ∧
         (∀ rid, spec.baseline_run_id = some rid → rid ≠ "" →
            env.baseline_dir_exists rid = true) ∧
         env.gemini_api_key = true) := by
      unfold phase1Errors
      cases hb : spec.baseline_run_id <;> split_ifs <;> simp_all
    refine ⟨?_, ?_, ?_⟩
    · rw [hval]
      by_cases hemp : (phase1Errors env spec).isEmpty
      · rw [if_pos hemp]
        simp only [List.isEmpty_iff] at hemp
        exact iff_of_true rfl (hempty.mp hemp)
      · rw [if_neg hemp]
        simp only [List.isEmpty_iff] at hemp
        constructor
        · intro h; cases h
        · intro hcond; exact absurd (hempty.mpr hcond) hemp
    · intro hne
      rw [hval, if_neg (by simpa [List.isEmpty_iff] using hne)]
    · unfold phase1Errors
      cases hb : spec.baseline_run_id <;> split_ifs <;> simp_all <;>
        split_ifs <;> simp_all
/-- Witness for the validator claim: an environment whose spec parses
but fails V3 (two styles) and V7 (missing credential); both failures are
collected. -/
theorem C3_validate_collects_all_witness :
    (envEx.spec_exists = false →
      validate_phase1 envEx = .error "V1 FAIL: run_spec.json does not exist") ∧
    (∀ e, envEx.spec_exists = true → envEx.parsed = .error e →
      validate_phase1 envEx = .error e) ∧
    (∀ spec, envEx.spec_exists = true → envEx.parsed = .ok spec →
      ((validate_phase1 envEx = .ok spec ↔
          (spec.styles.length = 3 ∧ spec.image_count = 3 ∧
           envEx.output_dir_exists spec.output_dir = false ∧
           (∀ rid, spec.baseline_run_id = some rid → rid ≠ "" →
              envEx.baseline_dir_exists rid = true) ∧
           envEx.gemini_api_key = true)) ∧
       (phase1Errors envEx spec ≠ [] →
         validate_phase1 envEx =
           .error (String.intercalate "\n" (phase1Errors envEx spec))) ∧
       ((phase1Errors envEx spec).length =
         (if spec.styles.length ≠ 3 then 1 else 0) +
         (if spec.image_count ≠ 3 then 1 else 0) +
         (if envEx.output_dir_exists spec.output_dir then 1 else 0) +
         (match spec.baseline_run_id with
          | some rid =>
              if rid = "" then 0
              else if envEx.baseline_dir_exists rid then 0 else 1
          | none => 0) +
         (if envEx.gemini_api_key then 0 else 1)))) :=
  C3_validate_collects_all envEx

/-- Claim C4: `synthesize_results` scores every style declared in the
spec; a style absent from a judge's rank dict gets the default rank `3`
there instead of an error, and
`final_score = feasibility_weight × rank_f + preference_weight × rank_p`. -/
theorem C4_missing_rank_defaults (spec : RunSpec) (gemini opus : JudgeRankings)
    (s : String) (hs : s ∈ spec.styles) :
    ∃ res, synthesize_results spec gemini opus = some res ∧
      ∃ e ∈ res.rankings,
        e.2.style = s ∧
        e.2.gemini_rank = ((alookup s (rank_dict gemini)).getD 3) ∧
        e.2.opus_rank = ((alookup s (rank_dict opus)).getD 3) ∧
        e.2.final_score =
          spec.feasibility_weight * e.2.gemini_rank +
            spec.preference_weight * e.2.opus_rank := by
  have hmem : synth_row spec.feasibility_weight spec.preference_weight
      (rank_dict gemini) (rank_dict opus) s ∈
      (synth_rows spec gemini opus).mergeSort
        (fun a b => decide (a.final_score ≤ b.final_score)) :=
    List.mem_mergeSort.mpr (List.mem_map_of_mem _ hs)
  obtain ⟨r, hr⟩ := enumFrom1_mem _ 1 hmem
  simp only [synthesize_results]
  cases hE : enumFrom1 1 ((synth_rows spec gemini opus).mergeSort
      (fun a b => decide (a.final_score ≤ b.final_score))) with
  | nil => rw [hE] at hr; cases hr
  | cons w rest =>
      rw [hE] at hr
      exact ⟨_, rfl, (r, _), hr, rfl, rfl, rfl, rfl⟩

/-- Witness for the synthesizer-default claim: `Storybook` is declared
in the spec but absent from the feasibility ranking, so it gets
feasibility rank 3. -/
theorem C4_missing_rank_defaults_witness :
    ∃ res, synthesize_results spec3Ex gemEx opusEx = some res ∧
      ∃ e ∈ res.rankings,
        e.2.style = "Storybook" ∧
        e.2.gemini_rank = ((alookup "Storybook" (rank_dict gemEx)).getD 3) ∧
        e.2.opus_rank = ((alookup "Storybook" (rank_dict opusEx)).getD 3) ∧
        e.2.final_score =
          spec3Ex.feasibility_weight * e.2.gemini_rank +
            spec3Ex.preference_weight * e.2.opus_rank :=
  C4_missing_rank_defaults spec3Ex gemEx opusEx "Storybook"
    (by simp [spec3Ex])


theorem enumFrom1_append : ∀ (l r : List α) (i : ℕ),
    enumFrom1 i (l ++ r) = enumFrom1 i l ++ enumFrom1 (i + l.length) r
  | [], r, i => by simp [enumFrom1]
  | a :: as, r, i => by
    show (i, a) :: enumFrom1 (i + 1) (as ++ r) =
      (i, a) :: (enumFrom1 (i + 1) as ++ enumFrom1 (i + (as.length + 1)) r)
    rw [enumFrom1_append as r (i + 1),
      show i + (as.length + 1) = i + 1 + as.length by omega]

theorem enumFrom1_snd_mem {p : ℕ × α} :
    ∀ {l : List α} {i : ℕ}, p ∈ enumFrom1 i l → p.2 ∈ l := by
  intro l
  induction l with
  | nil => intro i h; cases h
  | cons a t ih =>
    intro i h
    rcases List.mem_cons.mp h with rfl | h'
    · exact List.mem_cons_self _ _
    · exact List.mem_cons_of_mem _ (ih h')

theorem enumFrom1_map_snd : ∀ (l : List α) (i : ℕ),
    (enumFrom1 i l).map Prod.snd = l
  | [], _ => rfl
  | a :: as, i => by simp [enumFrom1, enumFrom1_map_snd as (i + 1)]

theorem enumFrom1_map_fst : ∀ (l : List α) (i : ℕ),
    (enumFrom1 i l).map Prod.fst = List.range' i l.length
  | [], _ => rfl
  | a :: as, i => by
    simp [enumFrom1, enumFrom1_map_fst as (i + 1), List.range'_succ]

theorem enumFrom1_pairwise {R : α → α → Prop} :
    ∀ {l : List α} (i : ℕ), l.Pairwise R →
      (enumFrom1 i l).Pairwise (fun p q => R p.2 q.2) := by
  intro l
  induction l with
  | nil => intro i _; exact List.Pairwise.nil
  | cons a t ih =>
    intro i h
    rcases List.pairwise_cons.mp h with ⟨ha, ht⟩
    refine List.pairwise_cons.mpr ⟨?_, ih (i + 1) ht⟩
    intro q hq
    exact ha q.2 (enumFrom1_snd_mem hq)

theorem enumFrom1_eq_nil {l : List α} {i : ℕ} :
    enumFrom1 i l = [] ↔ l = [] := by
  cases l <;> simp [enumFrom1]

theorem pair_sublist_split {a b : α} :
    ∀ {l : List α}, List.Sublist [a, b] l →
      ∃ l₁ l₂ l₃, l = l₁ ++ a :: (l₂ ++ b :: l₃) := by
  intro l
  induction l with
  | nil => intro h; simp at h
  | cons c t ih =>
    intro h
    cases h with
    | cons _ h' =>
      obtain ⟨l₁, l₂, l₃, rfl⟩ := ih h'
      exact ⟨c :: l₁, l₂, l₃, rfl⟩
    | cons₂ _ h' =>
      obtain ⟨l₂, l₃, rfl⟩ := List.append_of_mem (List.singleton_sublist.mp h')
      exact ⟨[], l₂, l₃, rfl⟩

theorem enumFrom1_rank_lt {a b : α} {l : List α} (i : ℕ) (h : List.Sublist [a, b] l) :
    ∃ r1 r2, r1 < r2 ∧ (r1, a) ∈ enumFrom1 i l ∧ (r2, b) ∈ enumFrom1 i l := by
  obtain ⟨l₁, l₂, l₃, rfl⟩ := pair_sublist_split h
  refine ⟨i + l₁.length, i + l₁.length + 1 + l₂.length, by omega, ?_, ?_⟩
  · rw [enumFrom1_append]
    refine List.mem_append_right _ ?_
    simp only [enumFrom1]
    exact List.mem_cons_self _ _
  · rw [enumFrom1_append]
    refine List.mem_append_right _ ?_
    simp only [enumFrom1]
    refine List.mem_cons_of_mem _ ?_
    rw [enumFrom1_append]
    refine List.mem_append_right _ ?_
    simp only [enumFrom1, List.length_cons]
    exact List.mem_cons_self _ _

theorem pair_get_sublist :
    ∀ (l : List α) (i j : ℕ) (hij : i < j) (hj : j < l.length),
      List.Sublist [l.get ⟨i, Nat.lt_trans hij hj⟩, l.get ⟨j, hj⟩] l := by
  intro l
  induction l with
  | nil => intro i j hij hj; simp at hj
  | cons a t ih =>
    intro i j hij hj
    match i, j with
    | 0, j + 1 =>
      have hb : t.get ⟨j, by simpa using hj⟩ ∈ t := t.get_mem _ _
      exact (List.singleton_sublist.mpr hb).cons₂ a
    | i + 1, j + 1 =>
      exact (ih i j (by omega) (by simpa using hj)).cons a

/-- Claim C9: for a non-empty declared styles list, `synthesize_results`
returns exactly one entry per declared style, ranks are the integers
`1..N` assigned in ascending `final_score` order with ties resolved by
styles-list input order, and the winner is the rank-1 entry's style; an
empty styles list makes the winner selection fail (an `IndexError`,
modelled as `none`). -/
theorem C9_synthesis_shape (spec : RunSpec) (gemini opus : JudgeRankings) :
    (synthesize_results spec gemini opus = none ↔ spec.styles = []) ∧
    (∀ res, synthesize_results spec gemini opus = some res →
      ((res.rankings.map (fun e => e.2.style)).Perm spec.styles ∧
       res.rankings.map Prod.fst = List.range' 1 spec.styles.length ∧
       res.rankings.Pairwise (fun a b => a.2.final_score ≤ b.2.final_score) ∧
       (∀ w, res.rankings.head? = some w → res.winner = w.2.style) ∧
       (∀ i j (hij : i < j) (hj : j < spec.styles.length),
         (synth_row spec.feasibility_weight spec.preference_weight
            (rank_dict gemini) (rank_dict opus)
            (spec.styles.get ⟨i, Nat.lt_trans hij hj⟩)).final_score =
           (synth_row spec.feasibility_weight spec.preference_weight
              (rank_dict gemini) (rank_dict opus)
              (spec.styles.get ⟨j, hj⟩)).final_score →
         ∃ r1 r2, r1 < r2 ∧
           (r1, synth_row spec.feasibility_weight spec.preference_weight
              (rank_dict gemini) (rank_dict opus)
              (spec.styles.get ⟨i, Nat.lt_trans hij hj⟩)) ∈ res.rankings ∧
           (r2, synth_row spec.feasibility_weight spec.preference_weight
              (rank_dict gemini) (rank_dict opus)
              (spec.styles.get ⟨j, hj⟩)) ∈ res.rankings))) := by
  have htrans : ∀ a b c : SynthEntry,
      (fun a b => decide (a.final_score ≤ b.final_score)) a b →
      (fun a b => decide (a.final_score ≤ b.final_score)) b c →
      (fun a b => decide (a.final_score ≤ b.final_score)) a c := by
    intro a b c h1 h2
    simp only [decide_eq_true_eq] at *
    exact le_trans h1 h2
  have htotal : ∀ a b : SynthEntry,
      (fun a b => decide (a.final_score ≤ b.final_score)) a b ||
      (fun a b => decide (a.final_score ≤ b.final_score)) b a := by
    intro a b
    simp only [Bool.or_eq_true, decide_eq_true_eq]
    exact le_total _ _
  have hstyles : (synth_rows spec gemini opus).map (fun e => e.style) =
      spec.styles := by
    simp [synth_rows, List.map_map, Function.comp_def, synth_row]
  constructor
  · simp only [synthesize_results]
    cases hE : enumFrom1 1 ((synth_rows spec gemini opus).mergeSort
        (fun a b => decide (a.final_score ≤ b.final_score))) with
    | nil =>
      have h1 : (synth_rows spec gemini opus).mergeSort
          (fun a b => decide (a.final_score ≤ b.final_score)) = [] :=
        enumFrom1_eq_nil.mp hE
      have h2 : synth_rows spec gemini opus = [] := by
        have h3 := congrArg List.length h1
        simp only [List.length_mergeSort] at h3
        exact List.length_eq_zero.mp h3
      refine iff_of_true rfl ?_
      rw [← hstyles, h2]
      rfl
    | cons w rest =>
      refine iff_of_false (by simp) ?_
      intro hsty
      have h2 : synth_rows spec gemini opus = [] := by
        simp [synth_rows, hsty]
      rw [h2] at hE
      simp [enumFrom1] at hE
  · intro res hres
    simp only [synthesize_results] at hres
    cases hE : enumFrom1 1 ((synth_rows spec gemini opus).mergeSort
        (fun a b => decide (a.final_score ≤ b.final_score))) with
    | nil => rw [hE] at hres; cases hres
    | cons w rest =>
      rw [hE] at hres
      cases hres
      refine ⟨?_, ?_, ?_, ?_, ?_⟩
      · show ((w :: rest).map (fun e => e.2.style)).Perm spec.styles
        have h1 : (w :: rest).map (fun e => e.2.style) =
            (((w :: rest).map Prod.snd).map (fun e => e.style)) := by
          simp [List.map_map, Function.comp_def]
        rw [h1, ← hE, enumFrom1_map_snd]
        have hperm : (((synth_rows spec gemini opus).mergeSort
            (fun a b => decide (a.final_score ≤ b.final_score))).map
              (fun e => e.style)).Perm
            ((synth_rows spec gemini opus).map (fun e => e.style)) :=
          (List.mergeSort_perm _ _).map _
        rw [hstyles] at hperm
        exact hperm
      · show (w :: rest).map Prod.fst = List.range' 1 spec.styles.length
        rw [← hE, enumFrom1_map_fst]
        simp [synth_rows]
      · show (w :: rest).Pairwise
          (fun a b => a.2.final_score ≤ b.2.final_score)
        have hp := List.sorted_mergeSort htrans htotal
          (synth_rows spec gemini opus)
        have hp2 := enumFrom1_pairwise 1 hp
        rw [hE] at hp2
        exact hp2.imp (fun h => by simpa using h)
      · show ∀ w', (w :: rest).head? = some w' → w.2.style = w'.2.style
        intro w' hw'
        cases hw'
        rfl
      · intro i j hij hj heq
        have hsub : List.Sublist [spec.styles.get ⟨i, Nat.lt_trans hij hj⟩,
            spec.styles.get ⟨j, hj⟩] spec.styles :=
          pair_get_sublist spec.styles i j hij hj
        have hsub2 : List.Sublist [synth_row spec.feasibility_weight
            spec.preference_weight (rank_dict gemini) (rank_dict opus)
            (spec.styles.get ⟨i, Nat.lt_trans hij hj⟩),
            synth_row spec.feasibility_weight spec.preference_weight
            (rank_dict gemini) (rank_dict opus)
            (spec.styles.get ⟨j, hj⟩)] (synth_rows spec gemini opus) := by
          simpa [synth_rows] using hsub.map
            (synth_row spec.feasibility_weight spec.preference_weight
              (rank_dict gemini) (rank_dict opus))
        have hle : (fun a b => decide (a.final_score ≤ b.final_score))
            (synth_row spec.feasibility_weight spec.preference_weight
              (rank_dict gemini) (rank_dict opus)
              (spec.styles.get ⟨i, Nat.lt_trans hij hj⟩))
            (synth_row spec.feasibility_weight spec.preference_weight
              (rank_dict gemini) (rank_dict opus)
              (spec.styles.get ⟨j, hj⟩)) := by
          simp only [decide_eq_true_eq]
          exact le_of_eq heq
        have hsorted := List.pair_sublist_mergeSort htrans htotal hle hsub2
        obtain ⟨r1, r2, hlt, hm1, hm2⟩ := enumFrom1_rank_lt 1 hsorted
        rw [hE] at hm1 hm2
        exact ⟨r1, r2, hlt, hm1, hm2⟩



/-- Witness for the synthesizer-shape claim at the three-style example
(with a partial feasibility ranking). -/
theorem C9_synthesis_shape_witness :
    (synthesize_results spec3Ex gemEx opusEx = none ↔ spec3Ex.styles = []) ∧
    (∀ res, synthesize_results spec3Ex gemEx opusEx = some res →
      ((res.rankings.map (fun e => e.2.style)).Perm spec3Ex.styles ∧
       res.rankings.map Prod.fst = List.range' 1 spec3Ex.styles.length ∧
       res.rankings.Pairwise (fun a b => a.2.final_score ≤ b.2.final_score) ∧
       (∀ w, res.rankings.head? = some w → res.winner = w.2.style) ∧
       (∀ i j (hij : i < j) (hj : j < spec3Ex.styles.length),
         (synth_row spec3Ex.feasibility_weight spec3Ex.preference_weight
            (rank_dict gemEx) (rank_dict opusEx)
            (spec3Ex.styles.get ⟨i, Nat.lt_trans hij hj⟩)).final_score =
           (synth_row spec3Ex.feasibility_weight spec3Ex.preference_weight
              (rank_dict gemEx) (rank_dict opusEx)
              (spec3Ex.styles.get ⟨j, hj⟩)).final_score →
         ∃ r1 r2, r1 < r2 ∧
           (r1, synth_row spec3Ex.feasibility_weight spec3Ex.preference_weight
              (rank_dict gemEx) (rank_dict opusEx)
              (spec3Ex.styles.get ⟨i, Nat.lt_trans hij hj⟩)) ∈ res.rankings ∧
           (r2, synth_row spec3Ex.feasibility_weight spec3Ex.preference_weight
              (rank_dict gemEx) (rank_dict opusEx)
              (spec3Ex.styles.get ⟨j, hj⟩)) ∈ res.rankings))) :=
  C9_synthesis_shape spec3Ex gemEx opusEx


theorem map_fst_filter_ne (k : String) (l : List (String × β)) :
    (l.filter (fun p => p.1 != k)).map Prod.fst =
      (l.map Prod.fst).filter (fun s => s != k) := by
  induction l with
  | nil => rfl
  | cons p ps ih =>
    simp only [List.filter_cons, List.map_cons]
    cases hb : (p.1 != k) <;> simp [hb, ih]

theorem groupPairs_keys_mem {s : String} (l : List (String × β)) :
    s ∈ (groupPairs l).map Prod.fst ↔ s ∈ l.map Prod.fst := by
  induction l using groupPairs.induct with
  | case1 => simp [groupPairs]
  | case2 k v rest ih =>
    rw [groupPairs]
    simp only [List.map_cons, List.mem_cons]
    constructor
    · rintro (rfl | h)
      · exact Or.inl rfl
      · right
        have h2 := ih.mp h
        rw [map_fst_filter_ne] at h2
        exact List.mem_of_mem_filter h2
    · rintro (rfl | h)
      · exact Or.inl rfl
      · by_cases hk : s = k
        · exact Or.inl hk
        · right
          apply ih.mpr
          rw [map_fst_filter_ne]
          exact List.mem_filter.mpr ⟨h, by simp [hk]⟩

theorem groupPairs_keys_nodup (l : List (String × β)) :
    ((groupPairs l).map Prod.fst).Nodup := by
  induction l using groupPairs.induct with
  | case1 => simp [groupPairs]
  | case2 k v rest ih =>
    rw [groupPairs]
    simp only [List.map_cons]
    refine List.nodup_cons.mpr ⟨?_, ih⟩
    intro hk
    have h2 := (groupPairs_keys_mem _).mp hk
    rw [map_fst_filter_ne] at h2
    have h3 := List.mem_filter.mp h2
    simp at h3

theorem indexOf_filter_lt {k s1 s2 : String} (l : List String)
    (h1 : s1 ∈ l) (h2 : s2 ∈ l) (hk1 : s1 ≠ k) (hk2 : s2 ≠ k)
    (hlt : l.indexOf s1 < l.indexOf s2) :
    (l.filter (fun s => s != k)).indexOf s1 <
      (l.filter (fun s => s != k)).indexOf s2 := by
  induction l with
  | nil => cases h1
  | cons a t ih =>
    by_cases ha1 : a = s1
    · subst ha1
      have hs2ne : s2 ≠ a := by
        intro h
        subst h
        simp [List.indexOf_cons_self] at hlt
      have hfa : (a :: t).filter (fun s => s != k) =
          a :: t.filter (fun s => s != k) := by
        simp [List.filter_cons, hk1]
      rw [hfa, List.indexOf_cons_self,
        List.indexOf_cons_ne _ (fun h => hs2ne h.symm)]
      exact Nat.succ_pos _
    · by_cases ha2 : a = s2
      · subst ha2
        rw [List.indexOf_cons_self] at hlt
        exact absurd hlt (Nat.not_lt_zero _)
      · have e1 := List.indexOf_cons_ne (a := s1) t ha1
        have e2 := List.indexOf_cons_ne (a := s2) t ha2
        rw [e1, e2] at hlt
        have ht1 : s1 ∈ t := by
          rcases List.mem_cons.mp h1 with h | h
          · exact absurd h.symm ha1
          · exact h
        have ht2 : s2 ∈ t := by
          rcases List.mem_cons.mp h2 with h | h
          · exact absurd h.symm ha2
          · exact h
        have hlt' : t.indexOf s1 < t.indexOf s2 := by omega
        by_cases hak : a = k
        · have hf : (a :: t).filter (fun s => s != k) =
              t.filter (fun s => s != k) := by
            simp [List.filter_cons, hak]
          rw [hf]
          exact ih ht1 ht2 hlt'
        · have hf : (a :: t).filter (fun s => s != k) =
              a :: t.filter (fun s => s != k) := by
            simp [List.filter_cons, hak]
          rw [hf, List.indexOf_cons_ne (a := s1) _ ha1,
            List.indexOf_cons_ne (a := s2) _ ha2]
          have := ih ht1 ht2 hlt'
          omega

theorem groupPairs_order {s1 s2 : String} :
    ∀ (l : List (String × β)),
      s1 ∈ l.map Prod.fst → s2 ∈ l.map Prod.fst →
      (l.map Prod.fst).indexOf s1 < (l.map Prod.fst).indexOf s2 →
      ∃ v1 v2, List.Sublist [(s1, v1), (s2, v2)] (groupPairs l) := by
  intro l
  induction l using groupPairs.induct with
  | case1 => intro h; simp at h
  | case2 k v rest ih =>
    intro h1 h2 hlt
    simp only [List.map_cons] at h1 h2 hlt
    by_cases hk1 : s1 = k
    · subst hk1
      rw [List.indexOf_cons_self] at hlt
      have hs2k : s2 ≠ s1 := by
        intro h
        subst h
        simp [List.indexOf_cons_self] at hlt
      have h2r : s2 ∈ rest.map Prod.fst := by
        rcases List.mem_cons.mp h2 with h | h
        · exact absurd h hs2k
        · exact h
      have h2f : s2 ∈ (rest.filter (fun p => p.1 != s1)).map Prod.fst := by
        rw [map_fst_filter_ne]
        exact List.mem_filter.mpr ⟨h2r, by simp [hs2k]⟩
      have h2g := (groupPairs_keys_mem _).mpr h2f
      obtain ⟨p, hp, hps⟩ := List.mem_map.mp h2g
      rw [groupPairs]
      refine ⟨v :: (rest.filter (fun p => p.1 == s1)).map Prod.snd, p.2, ?_⟩
      refine List.Sublist.cons₂ _ ?_
      refine List.singleton_sublist.mpr ?_
      have hps' : (s2, p.2) = p := by
        rw [← hps]
      rw [hps']
      exact hp
    · by_cases hk2 : s2 = k
      · subst hk2
        rw [List.indexOf_cons_self] at hlt
        exact absurd hlt (Nat.not_lt_zero _)
      · have e1 := List.indexOf_cons_ne (rest.map Prod.fst)
          (fun h => hk1 h.symm) (a := s1)
        have e2 := List.indexOf_cons_ne (rest.map Prod.fst)
          (fun h => hk2 h.symm) (a := s2)
        rw [e1, e2] at hlt
        have hlt' : (rest.map Prod.fst).indexOf s1 <
            (rest.map Prod.fst).indexOf s2 := by omega
        have h1r : s1 ∈ rest.map Prod.fst := by
          rcases List.mem_cons.mp h1 with h | h
          · exact absurd h hk1
          · exact h
        have h2r : s2 ∈ rest.map Prod.fst := by
          rcases List.mem_cons.mp h2 with h | h
          · exact absurd h hk2
          · exact h
        have hfl := indexOf_filter_lt (k := k) (rest.map Prod.fst)
          h1r h2r hk1 hk2 hlt'
        have m1 : s1 ∈ (rest.filter (fun p => p.1 != k)).map Prod.fst := by
          rw [map_fst_filter_ne]
          exact List.mem_filter.mpr ⟨h1r, by simp [hk1]⟩
        have m2 : s2 ∈ (rest.filter (fun p => p.1 != k)).map Prod.fst := by
          rw [map_fst_filter_ne]
          exact List.mem_filter.mpr ⟨h2r, by simp [hk2]⟩
        rw [← map_fst_filter_ne] at hfl
        obtain ⟨v1, v2, hsub⟩ := ih m1 m2 hfl
        rw [groupPairs]
        exact ⟨v1, v2, hsub.cons _⟩

/-- Claim C5: `compute_feasibility_rankings` sorts groups descending by
`avg_score` and assigns 1-based ranks; for two groups with identical
(stored) `avg_score`, the group whose evaluations appear first in the
input collection receives the numerically lower (better) rank. -/
theorem C5_aggregator_tiebreak (rs : List OAcrueResult) (s1 s2 : String)
    (h1 : s1 ∈ rs.map (fun r => r.style))
    (h2 : s2 ∈ rs.map (fun r => r.style))
    (hlt : (rs.map (fun r => r.style)).indexOf s1 <
      (rs.map (fun r => r.style)).indexOf s2) :
    ((compute_feasibility_rankings rs).rankings.map
      (fun e => e.2.style)).Nodup ∧
    (compute_feasibility_rankings rs).rankings.map Prod.fst =
      List.range' 1 (feas_data rs).length ∧
    (compute_feasibility_rankings rs).rankings.Pairwise
      (fun a b => b.2.avg_score ≤ a.2.avg_score) ∧
    (∃ e ∈ (compute_feasibility_rankings rs).rankings, e.2.style = s1) ∧
    (∃ e ∈ (compute_feasibility_rankings rs).rankings, e.2.style = s2) ∧
    (∀ e1 ∈ (compute_feasibility_rankings rs).rankings,
     ∀ e2 ∈ (compute_feasibility_rankings rs).rankings,
       e1.2.style = s1 → e2.2.style = s2 →
       e1.2.avg_score = e2.2.avg_score → e1.1 < e2.1) := by
  have htrans : ∀ a b c : FeasEntry,
      (fun a b => decide (b.avg_score ≤ a.avg_score)) a b →
      (fun a b => decide (b.avg_score ≤ a.avg_score)) b c →
      (fun a b => decide (b.avg_score ≤ a.avg_score)) a c := by
    intro a b c hab hbc
    simp only [decide_eq_true_eq] at *
    exact le_trans hbc hab
  have htotal : ∀ a b : FeasEntry,
      (fun a b => decide (b.avg_score ≤ a.avg_score)) a b ||
      (fun a b => decide (b.avg_score ≤ a.avg_score)) b a := by
    intro a b
    simp only [Bool.or_eq_true, decide_eq_true_eq]
    exact le_total _ _
  have hrank : (compute_feasibility_rankings rs).rankings =
      enumFrom1 1 ((feas_data rs).mergeSort
        (fun a b => decide (b.avg_score ≤ a.avg_score))) := rfl
  have hkeys : (rs.map (fun r => (r.style, oScoreRec r))).map Prod.fst =
      rs.map (fun r => r.style) := by
    simp [List.map_map, Function.comp_def]
  have hstyles : (feas_data rs).map (fun e => e.style) =
      (feas_groups rs).map Prod.fst := by
    simp [feas_data, List.map_map, Function.comp_def, feas_row]
  have hmapstyle : (compute_feasibility_rankings rs).rankings.map
      (fun e => e.2.style) =
      ((feas_data rs).mergeSort
        (fun a b => decide (b.avg_score ≤ a.avg_score))).map
        (fun e => e.style) := by
    rw [hrank]
    rw [show (enumFrom1 1 ((feas_data rs).mergeSort
        (fun a b => decide (b.avg_score ≤ a.avg_score)))).map
        (fun e => e.2.style) =
        ((enumFrom1 1 ((feas_data rs).mergeSort
          (fun a b => decide (b.avg_score ≤ a.avg_score)))).map
            Prod.snd).map (fun e => e.style) by
      simp [List.map_map, Function.comp_def]]
    rw [enumFrom1_map_snd]
  have hnodup : ((compute_feasibility_rankings rs).rankings.map
      (fun e => e.2.style)).Nodup := by
    rw [hmapstyle]
    have hperm : (((feas_data rs).mergeSort
        (fun a b => decide (b.avg_score ≤ a.avg_score))).map
          (fun e => e.style)).Perm ((feas_data rs).map (fun e => e.style)) :=
      (List.mergeSort_perm _ _).map _
    refine hperm.nodup_iff.mpr ?_
    rw [hstyles]
    exact groupPairs_keys_nodup _
  obtain ⟨v1, v2, hsub⟩ := groupPairs_order
    (rs.map (fun r => (r.style, oScoreRec r)))
    (by rw [hkeys]; exact h1) (by rw [hkeys]; exact h2)
    (by rw [hkeys]; exact hlt)
  have hmem1 : (s1, v1) ∈ feas_groups rs :=
    hsub.subset (List.mem_cons_self _ _)
  have hmem2 : (s2, v2) ∈ feas_groups rs :=
    hsub.subset (List.mem_cons_of_mem _ (List.mem_cons_self _ _))
  have hd1 : feas_row (s1, v1) ∈ (feas_data rs).mergeSort
      (fun a b => decide (b.avg_score ≤ a.avg_score)) :=
    List.mem_mergeSort.mpr (List.mem_map_of_mem _ hmem1)
  have hd2 : feas_row (s2, v2) ∈ (feas_data rs).mergeSort
      (fun a b => decide (b.avg_score ≤ a.avg_score)) :=
    List.mem_mergeSort.mpr (List.mem_map_of_mem _ hmem2)
  obtain ⟨q1, hq1⟩ := enumFrom1_mem _ 1 hd1
  obtain ⟨q2, hq2⟩ := enumFrom1_mem _ 1 hd2
  rw [← hrank] at hq1 hq2
  have huniq : ∀ p q, p ∈ (compute_feasibility_rankings rs).rankings →
      q ∈ (compute_feasibility_rankings rs).rankings →
      p.2.style = q.2.style → p = q := by
    intro p q hp hq hpq
    exact List.inj_on_of_nodup_map hnodup hp hq hpq
  refine ⟨hnodup, ?_, ?_, ?_, ?_, ?_⟩
  · rw [hrank, enumFrom1_map_fst, List.length_mergeSort]
  · have hp := List.sorted_mergeSort htrans htotal (feas_data rs)
    have hp2 := enumFrom1_pairwise 1 hp
    rw [← hrank] at hp2
    exact hp2.imp (fun h => by simpa using h)
  · exact ⟨(q1, feas_row (s1, v1)), hq1, rfl⟩
  · exact ⟨(q2, feas_row (s2, v2)), hq2, rfl⟩
  · intro e1 he1 e2 he2 hs1 hs2 havg
    have he1q : e1 = (q1, feas_row (s1, v1)) :=
      huniq _ _ he1 hq1 (by rw [hs1]; rfl)
    have he2q : e2 = (q2, feas_row (s2, v2)) :=
      huniq _ _ he2 hq2 (by rw [hs2]; rfl)
    have havg' : (feas_row (s1, v1)).avg_score =
        (feas_row (s2, v2)).avg_score := by
      rw [he1q, he2q] at havg
      exact havg
    have hsub2 : List.Sublist [feas_row (s1, v1), feas_row (s2, v2)]
        (feas_data rs) := by
      simpa [feas_data] using hsub.map feas_row
    have hle : (fun a b => decide (b.avg_score ≤ a.avg_score))
        (feas_row (s1, v1)) (feas_row (s2, v2)) := by
      simp only [decide_eq_true_eq]
      exact le_of_eq havg'.symm
    have hsorted := List.pair_sublist_mergeSort htrans htotal hle hsub2
    obtain ⟨r1, r2, hr12, hm1, hm2⟩ := enumFrom1_rank_lt 1 hsorted
    rw [← hrank] at hm1 hm2
    have hq1' : (q1, feas_row (s1, v1)) = (r1, feas_row (s1, v1)) :=
      huniq _ _ hq1 hm1 rfl
    have hq2' : (q2, feas_row (s2, v2)) = (r2, feas_row (s2, v2)) :=
      huniq _ _ hq2 hm2 rfl
    rw [he1q, he2q, hq1', hq2']
    exact hr12



/-- Witness for the aggregator tie-break claim: two styles with equal
`avg_score`, `Anime` appearing first in the input. -/
theorem C5_aggregator_tiebreak_witness :
    ((compute_feasibility_rankings feasEx).rankings.map
      (fun e => e.2.style)).Nodup ∧
    (compute_feasibility_rankings feasEx).rankings.map Prod.fst =
      List.range' 1 (feas_data feasEx).length ∧
    (compute_feasibility_rankings feasEx).rankings.Pairwise
      (fun a b => b.2.avg_score ≤ a.2.avg_score) ∧
    (∃ e ∈ (compute_feasibility_rankings feasEx).rankings,
      e.2.style = "Anime") ∧
    (∃ e ∈ (compute_feasibility_rankings feasEx).rankings,
      e.2.style = "Pop Art") ∧
    (∀ e1 ∈ (compute_feasibility_rankings feasEx).rankings,
     ∀ e2 ∈ (compute_feasibility_rankings feasEx).rankings,
       e1.2.style = "Anime" → e2.2.style = "Pop Art" →
       e1.2.avg_score = e2.2.avg_score → e1.1 < e2.1) :=
  C5_aggregator_tiebreak feasEx "Anime" "Pop Art"
    (by simp [feasEx]) (by simp [feasEx]) (by decide)

theorem feas_row_avg_grade (g : String × List OScoreRec) :
    (feas_row g).avg_grade = spec_avg_grade (g.2.map (fun s => s.grade)) := by
  simp [feas_row, spec_avg_grade, List.map_map, Function.comp_def]

/-- Claim C6: every group's `avg_grade` is the grade-ordinal average of
its item grades re-mapped through the 4.5/3.5/2.5/1.5 breakpoints, and
it is not the direct discretization of `avg_percentage`: on `gradeEx`
the two disagree (`A` vs `B`). -/
theorem C6_avg_grade_ordinal (rs : List OAcrueResult) :
    (∀ e ∈ (compute_feasibility_rankings rs).rankings,
       (e.2.style, e.2.avg_grade) ∈ (feas_groups rs).map
         (fun g => (g.1, spec_avg_grade (g.2.map (fun s => s.grade))))) ∧
    (∃ e ∈ (compute_feasibility_rankings gradeEx).rankings,
       e.2.avg_grade ≠ get_grade e.2.avg_percentage) := by
  constructor
  · intro e he
    have hrank : (compute_feasibility_rankings rs).rankings =
        enumFrom1 1 ((feas_data rs).mergeSort
          (fun a b => decide (b.avg_score ≤ a.avg_score))) := rfl
    rw [hrank] at he
    have hs : e.2 ∈ (feas_data rs).mergeSort
        (fun a b => decide (b.avg_score ≤ a.avg_score)) :=
      enumFrom1_snd_mem he
    have hd : e.2 ∈ feas_data rs := List.mem_mergeSort.mp hs
    obtain ⟨g, hg, hge⟩ := List.mem_map.mp hd
    refine List.mem_map.mpr ⟨g, hg, ?_⟩
    rw [← hge, feas_row_avg_grade]
    rfl
  · have e1 : ¬("A+" = "C") := by decide
    have e2 : ¬("A" = "C") := by decide
    have e3 : ¬("B" = "C") := by decide
    have e4 : ¬("A" = "B") := by decide
    norm_num [compute_feasibility_rankings, feas_data, feas_groups,
      groupPairs, feas_row, oScoreRec, gradeEx, alookup, grade_values,
      enumFrom1, get_grade, pyRound, pyRoundInt, -Int.self_sub_floor,
      e1, e2, e3, e4]


theorem alookup_mem {k : String} {v : α} :
    ∀ {l : List (String × α)}, alookup k l = some v → (k, v) ∈ l := by
  intro l
  induction l with
  | nil => intro h; cases h
  | cons p ps ih =>
    intro h
    simp only [alookup] at h
    split_ifs at h with hc
    · cases h
      rw [← hc]
      exact List.mem_cons_self _ _
    · exact List.mem_cons_of_mem _ (ih h)

theorem alookup_append_single {k rid : String} {x : α}
    (h : k ≠ rid) : ∀ (l : List (String × α)),
    alookup k (l ++ [(rid, x)]) = alookup k l := by
  intro l
  induction l with
  | nil => simp [alookup, (Ne.symm h)]
  | cons p ps ih =>
    simp only [List.cons_append, alookup]
    split_ifs
    · rfl
    · exact ih

theorem alookup_filter_ne {k rid : String} (h : k ≠ rid) :
    ∀ (l : List (String × α)),
    alookup k (l.filter (fun p => p.1 != rid)) = alookup k l := by
  intro l
  induction l with
  | nil => rfl
  | cons p ps ih =>
    by_cases hc : p.1 = k
    · have hkeep : (p.1 != rid) = true := by
        simp [bne_iff_ne, hc, h]
      simp [List.filter_cons, hkeep, alookup, hc, h]
    · by_cases hd : (p.1 != rid) = true
      · simp [List.filter_cons, hd, alookup, hc, ih]
      · simp [List.filter_cons, hd, alookup, hc, ih]

theorem mapSummarySheet_lookup (f : SummaryData → SummaryData) :
    ∀ (wb : Workbook),
    alookup "Summary" (mapSummarySheet wb f).sheets =
      (alookup "Summary" wb.sheets).map
        (fun s => match s with
          | Sheet.summarySheet d => Sheet.summarySheet (f d)
          | s => s) := by
  intro wb
  obtain ⟨l⟩ := wb
  induction l with
  | nil => rfl
  | cons p ps ih =>
    by_cases hc : p.1 = "Summary"
    · cases hs : p.2 <;>
        simp [mapSummarySheet, alookup, hc, hs]
    · simpa [mapSummarySheet, alookup, hc] using ih

theorem mapSummarySheet_keys (f : SummaryData → SummaryData)
    (wb : Workbook) :
    (mapSummarySheet wb f).sheets.map Prod.fst =
      wb.sheets.map Prod.fst := by
  obtain ⟨l⟩ := wb
  induction l with
  | nil => rfl
  | cons p ps ih =>
    by_cases hc : p.1 = "Summary"
    · cases hs : p.2 <;>
        simpa [mapSummarySheet, hc, hs] using ih
    · simpa [mapSummarySheet, hc] using ih

theorem mapSummarySheet_mem {s : Sheet}
    {f : SummaryData → SummaryData} {wb : Workbook}
    (hs : ("Summary", s) ∈ (mapSummarySheet wb f).sheets)
    (hok : wbOK wb) : ∃ d, s = Sheet.summarySheet d := by
  obtain ⟨q, hq, hqe⟩ := List.mem_map.mp hs
  by_cases hc : q.1 = "Summary"
  · obtain ⟨d, hd⟩ := hok.2 q.2 (by
      rw [show ("Summary", q.2) = q from Prod.ext hc.symm rfl]
      exact hq)
    rw [if_pos hc, hd] at hqe
    have hqe' : (q.1, Sheet.summarySheet (f d)) = ("Summary", s) := hqe
    injection hqe' with h1 h2
    exact ⟨f d, h2.symm⟩
  · rw [if_neg hc] at hqe
    exact absurd (by rw [hqe]) hc

theorem freshWorkbook_ok : wbOK freshWorkbook := by
  constructor
  · simp [freshWorkbook]
  · intro s hs
    simp only [freshWorkbook, List.mem_singleton, Prod.mk.injEq,
      true_and] at hs
    exact ⟨_, hs⟩

theorem ensureSummary_lookup (wb : Workbook) (hok : wbOK wb) :
    ∃ d, alookup "Summary" (ensureSummary wb).sheets =
      some (Sheet.summarySheet d) := by
  unfold ensureSummary
  by_cases ha : wb.sheets.any (fun p => p.1 == "Summary")
  · rw [if_pos ha]
    obtain ⟨p, hp, hps⟩ := List.any_eq_true.mp ha
    have hmem : "Summary" ∈ wb.sheets.map Prod.fst := by
      refine List.mem_map.mpr ⟨p, hp, ?_⟩
      simpa using hps
    have : ∃ v, alookup "Summary" wb.sheets = some v := by
      clear hok hp hps ha
      obtain ⟨l⟩ := wb
      induction l with
      | nil => simp at hmem
      | cons q qs ih =>
        by_cases hc : q.1 = "Summary"
        · exact ⟨q.2, by simp [alookup, hc]⟩
        · simp only [List.map_cons, List.mem_cons] at hmem
          rcases hmem with h | h
          · exact absurd h.symm hc
          · obtain ⟨v, hv⟩ := ih h
            exact ⟨v, by simp [alookup, hc, hv]⟩
    obtain ⟨v, hv⟩ := this
    obtain ⟨d, hd⟩ := hok.2 v (alookup_mem hv)
    exact ⟨d, by rw [hv, hd]⟩
  · rw [if_neg ha]
    exact ⟨⟨summaryHeaders, []⟩, by simp [alookup]⟩

theorem ensureSummary_ok (wb : Workbook) (hok : wbOK wb) :
    wbOK (ensureSummary wb) := by
  unfold ensureSummary
  by_cases ha : wb.sheets.any (fun p => p.1 == "Summary")
  · rw [if_pos ha]
    exact hok
  · rw [if_neg ha]
    constructor
    · simp only [List.map_cons]
      refine List.nodup_cons.mpr ⟨?_, hok.1⟩
      intro hmem
      obtain ⟨p, hp, hps⟩ := List.mem_map.mp hmem
      exact ha (List.any_eq_true.mpr ⟨p, hp, by simpa using hps⟩)
    · intro s hs
      simp only [List.mem_cons] at hs
      rcases hs with h | h
      · simp only [Prod.mk.injEq, true_and] at h
        exact ⟨_, h⟩
      · exact hok.2 s h

theorem ensureSummary_rows (wb : Workbook) :
    summaryRowsOf (ensureSummary wb) = summaryRowsOf wb := by
  unfold ensureSummary summaryRowsOf
  by_cases ha : wb.sheets.any (fun p => p.1 == "Summary")
  · rw [if_pos ha]
  · rw [if_neg ha]
    simp only [alookup, if_pos rfl]
    have : alookup "Summary" wb.sheets = none := by
      obtain ⟨l⟩ := wb
      induction l with
      | nil => rfl
      | cons q qs ih =>
        simp only [List.any_cons, Bool.or_eq_true, beq_iff_eq] at ha
        push_neg at ha
        simp only [alookup, if_neg ha.1]
        exact ih (by simpa using ha.2)
    rw [this]
    simp

theorem mapSummarySheet_ok {f : SummaryData → SummaryData} {wb : Workbook}
    (hok : wbOK wb) : wbOK (mapSummarySheet wb f) := by
  constructor
  · rw [mapSummarySheet_keys]
    exact hok.1
  · intro s hs
    exact mapSummarySheet_mem hs hok


theorem persist_wb_spec (now : String) (spec : RunSpec)
    (syn : SynthesisResult) (comp : Option Comparison) (wb : Workbook)
    (hok : wbOK wb) (hrid : spec.run_id ≠ "Summary") :
    summaryRowsOf (persist_wb now spec syn comp wb) =
      summaryRowsOf wb ++ [summaryRowFor now spec syn comp] ∧
    ((persist_wb now spec syn comp wb).sheets.filter
      (fun p => p.1 == spec.run_id)).length = 1 ∧
    wbOK (persist_wb now spec syn comp wb) := by
  have hok1 : wbOK (ensureSummary wb) := ensureSummary_ok wb hok
  obtain ⟨d1, hd1⟩ := ensureSummary_lookup wb hok
  have hok2 : wbOK (mapSummarySheet (ensureSummary wb)
      (fun d => { d with header := migrateHeader d.header })) :=
    mapSummarySheet_ok hok1
  have hok3 : wbOK (mapSummarySheet (mapSummarySheet (ensureSummary wb)
      (fun d => { d with header := migrateHeader d.header }))
      (fun d => { d with rows :=
          d.rows ++ [summaryRowFor now spec syn comp] })) :=
    mapSummarySheet_ok hok2
  have hSne : ("Summary" : String) ≠ spec.run_id := Ne.symm hrid
  have hpw : (persist_wb now spec syn comp wb).sheets =
      ((mapSummarySheet (mapSummarySheet (ensureSummary wb)
          (fun d => { d with header := migrateHeader d.header }))
          (fun d => { d with rows :=
            d.rows ++ [summaryRowFor now spec syn comp] })).sheets.filter
        (fun p => p.1 != spec.run_id)) ++
        [(spec.run_id, .detailSheet (detailFor spec syn))] := rfl
  have hl2 : alookup "Summary" (mapSummarySheet (ensureSummary wb)
      (fun d => { d with header := migrateHeader d.header })).sheets =
      some (Sheet.summarySheet
        { d1 with header := migrateHeader d1.header }) := by
    rw [mapSummarySheet_lookup, hd1]
    rfl
  have hl3 : alookup "Summary" (mapSummarySheet (mapSummarySheet
      (ensureSummary wb)
      (fun d => { d with header := migrateHeader d.header }))
      (fun d => { d with rows :=
        d.rows ++ [summaryRowFor now spec syn comp] })).sheets =
      some (Sheet.summarySheet
        { header := migrateHeader d1.header,
          rows := d1.rows ++ [summaryRowFor now spec syn comp] }) := by
    rw [mapSummarySheet_lookup, hl2]
    rfl
  refine ⟨?_, ?_, ?_⟩
  · unfold summaryRowsOf
    rw [hpw, alookup_append_single hSne, alookup_filter_ne hSne, hl3]
    have hrows : (match alookup "Summary" wb.sheets with
        | some (Sheet.summarySheet d) => d.rows
        | _ => []) = d1.rows := by
      have h0 : summaryRowsOf wb = d1.rows := by
        rw [← ensureSummary_rows wb]
        unfold summaryRowsOf
        rw [hd1]
      exact h0
    rw [hrows]
  · rw [hpw, List.filter_append, List.filter_filter]
    have hfalse : ∀ p : String × Sheet,
        ((p.1 == spec.run_id) && (p.1 != spec.run_id)) = false := by
      intro p
      by_cases h : p.1 = spec.run_id <;> simp [h]
    rw [List.filter_congr (fun p _ => hfalse p), List.filter_false]
    simp
  · constructor
    · show (((persist_wb now spec syn comp wb).sheets).map Prod.fst).Nodup
      rw [hpw, List.map_append, map_fst_filter_ne]
      refine List.nodup_append.mpr
        ⟨hok3.1.filter _, List.nodup_singleton _, ?_⟩
      intro x hx hx2
      simp only [List.map_cons, List.map_nil, List.mem_singleton] at hx2
      subst hx2
      have hxf := List.of_mem_filter hx
      simp at hxf
    · intro s hs
      rw [hpw] at hs
      simp only [List.mem_append, List.mem_singleton] at hs
      rcases hs with hs | hs
      · exact mapSummarySheet_mem (List.mem_of_mem_filter hs) hok2
      · injection hs with h1 h2
        exact absurd h1.symm hrid

/-- Claim C7: persisting the same run twice appends two summary rows for
that `run_id` (the summary append is not idempotent), but leaves exactly
one sheet named `run_id` (the detail sheet is deleted and recreated each
time, so the detail upsert is idempotent). -/
theorem C7_persist_twice (now1 now2 : String) (spec : RunSpec)
    (syn : SynthesisResult) (comp : Option Comparison) (st : FsState)
    (hok : fsOK st) (hrid : spec.run_id ≠ "Summary") :
    summaryRowsForRun
        (persist_to_excel now2 spec syn comp
          (persist_to_excel now1 spec syn comp st)) spec.run_id =
      summaryRowsForRun st spec.run_id + 2 ∧
    sheetsNamed
        (persist_to_excel now2 spec syn comp
          (persist_to_excel now1 spec syn comp st)) spec.run_id = 1 := by
  have key : ∀ (wb0 : Workbook), wbOK wb0 → ∀ (stx : FsState),
      stx.excel = some (.xlsx (persist_wb now1 spec syn comp wb0)) →
      summaryRowsForRun (persist_to_excel now2 spec syn comp stx) spec.run_id
        = ((summaryRowsOf wb0).filter
            (fun r => r.run_id == spec.run_id)).length + 2 ∧
      sheetsNamed (persist_to_excel now2 spec syn comp stx)
        spec.run_id = 1 := by
    intro wb0 hwb0 stx hstx
    obtain ⟨ex, bk⟩ := stx
    have hstx' : ex = some (.xlsx (persist_wb now1 spec syn comp wb0)) := hstx
    subst hstx'
    obtain ⟨hrows1, hcnt1, hok1⟩ :=
      persist_wb_spec now1 spec syn comp wb0 hwb0 hrid
    obtain ⟨hrows2, hcnt2, hok2⟩ :=
      persist_wb_spec now2 spec syn comp (persist_wb now1 spec syn comp wb0)
        hok1 hrid
    have hres : persist_to_excel now2 spec syn comp
        ⟨some (.xlsx (persist_wb now1 spec syn comp wb0)), bk⟩ =
        ⟨some (.xlsx (persist_wb now2 spec syn comp
          (persist_wb now1 spec syn comp wb0))), bk⟩ := rfl
    rw [hres]
    constructor
    · show ((summaryRowsOf (persist_wb now2 spec syn comp
          (persist_wb now1 spec syn comp wb0))).filter
          (fun r => r.run_id == spec.run_id)).length =
        ((summaryRowsOf wb0).filter
          (fun r => r.run_id == spec.run_id)).length + 2
      rw [hrows2, hrows1]
      simp [List.filter_append, summaryRowFor]
    · show ((persist_wb now2 spec syn comp
          (persist_wb now1 spec syn comp wb0)).sheets.filter
          (fun p => p.1 == spec.run_id)).length = 1
      exact hcnt2
  obtain ⟨ex, bk⟩ := st
  rcases ex with _ | f
  · have h1 : persist_to_excel now1 spec syn comp
        (⟨none, bk⟩ : FsState) =
        ⟨some (.xlsx (persist_wb now1 spec syn comp freshWorkbook)), bk⟩ :=
      rfl
    obtain ⟨ha, hb⟩ := key freshWorkbook freshWorkbook_ok
      (persist_to_excel now1 spec syn comp (⟨none, bk⟩ : FsState))
      (by rw [h1])
    refine ⟨?_, hb⟩
    rw [ha]
    show ((summaryRowsOf freshWorkbook).filter
        (fun r => r.run_id == spec.run_id)).length + 2 = 0 + 2
    simp [summaryRowsOf, freshWorkbook, alookup]
  · cases f with
    | xlsx wb =>
      have hwb : wbOK wb := hok wb rfl
      have h1 : persist_to_excel now1 spec syn comp
          (⟨some (.xlsx wb), bk⟩ : FsState) =
          ⟨some (.xlsx (persist_wb now1 spec syn comp wb)), bk⟩ := rfl
      obtain ⟨ha, hb⟩ := key wb hwb
        (persist_to_excel now1 spec syn comp
          (⟨some (.xlsx wb), bk⟩ : FsState)) (by rw [h1])
      exact ⟨ha, hb⟩
    | foreign b =>
      have h1 : persist_to_excel now1 spec syn comp
          (⟨some (.foreign b), bk⟩ : FsState) =
          ⟨some (.xlsx (persist_wb now1 spec syn comp freshWorkbook)),
            some (.foreign b)⟩ := rfl
      obtain ⟨ha, hb⟩ := key freshWorkbook freshWorkbook_ok
        (persist_to_excel now1 spec syn comp
          (⟨some (.foreign b), bk⟩ : FsState)) (by rw [h1])
      refine ⟨?_, hb⟩
      rw [ha]
      show ((summaryRowsOf freshWorkbook).filter
          (fun r => r.run_id == spec.run_id)).length + 2 = 0 + 2
      simp [summaryRowsOf, freshWorkbook, alookup]


/-- Witness for the persist-twice claim: two persists of `spec3Ex` into
an initially empty ledger. -/
theorem C7_persist_twice_witness :
    summaryRowsForRun
        (persist_to_excel "t2" spec3Ex synEx none
          (persist_to_excel "t1" spec3Ex synEx none
            (⟨none, none⟩ : FsState))) spec3Ex.run_id =
      summaryRowsForRun (⟨none, none⟩ : FsState) spec3Ex.run_id + 2 ∧
    sheetsNamed
        (persist_to_excel "t2" spec3Ex synEx none
          (persist_to_excel "t1" spec3Ex synEx none
            (⟨none, none⟩ : FsState))) spec3Ex.run_id = 1 :=
  C7_persist_twice "t1" "t2" spec3Ex synEx none ⟨none, none⟩
    (by intro wb h; cases h) (by decide)

/-- Claim C8: when the ledger file exists but is not a valid modern
`.xlsx`, `persist_to_excel` preserves the original content as the
backup file, builds the new ledger from a freshly-initialized workbook
carrying the header schema, and completes (the model is total: no
branch raises). -/
theorem C8_corruption_recovery (now : String) (spec : RunSpec)
    (syn : SynthesisResult) (comp : Option Comparison) (st : FsState)
    (f : LedgerFile) (hex : st.excel = some f)
    (hinv : is_valid_xlsx f = false) (hrid : spec.run_id ≠ "Summary") :
    (persist_to_excel now spec syn comp st).backup = some f ∧
    (persist_to_excel now spec syn comp st).excel =
      some (.xlsx (persist_wb now spec syn comp freshWorkbook)) ∧
    headerOf (persist_wb now spec syn comp freshWorkbook) =
      summaryHeaders ∧
    summaryRowsOf (persist_wb now spec syn comp freshWorkbook) =
      [summaryRowFor now spec syn comp] ∧
    ((persist_wb now spec syn comp freshWorkbook).sheets.filter
      (fun p => p.1 == spec.run_id)).length = 1 := by
  obtain ⟨ex, bk⟩ := st
  have hex' : ex = some f := hex
  subst hex'
  obtain ⟨hrows, hcnt, hok⟩ :=
    persist_wb_spec now spec syn comp freshWorkbook freshWorkbook_ok hrid
  have hres : persist_to_excel now spec syn comp
      (⟨some f, bk⟩ : FsState) =
      ⟨some (.xlsx (persist_wb now spec syn comp freshWorkbook)),
        some f⟩ := by
    unfold persist_to_excel
    simp only [hinv]
    rfl
  rw [hres]
  refine ⟨rfl, rfl, ?_, ?_, hcnt⟩
  · have hSne : ("Summary" : String) ≠ spec.run_id := Ne.symm hrid
    have hpw : (persist_wb now spec syn comp freshWorkbook).sheets =
        ((mapSummarySheet (mapSummarySheet (ensureSummary freshWorkbook)
            (fun d => { d with header := migrateHeader d.header }))
            (fun d => { d with rows :=
              d.rows ++ [summaryRowFor now spec syn comp] })).sheets.filter
          (fun p => p.1 != spec.run_id)) ++
          [(spec.run_id, .detailSheet (detailFor spec syn))] := rfl
    unfold headerOf
    rw [hpw, alookup_append_single hSne, alookup_filter_ne hSne]
    have hfresh : ensureSummary freshWorkbook = freshWorkbook := by
      unfold ensureSummary
      rw [if_pos (by simp [freshWorkbook])]
    rw [show alookup "Summary" (mapSummarySheet (mapSummarySheet
        (ensureSummary freshWorkbook)
        (fun d => { d with header := migrateHeader d.header }))
        (fun d => { d with rows :=
          d.rows ++ [summaryRowFor now spec syn comp] })).sheets =
        some (Sheet.summarySheet
          { header := migrateHeader summaryHeaders,
            rows := [] ++ [summaryRowFor now spec syn comp] }) by
      rw [mapSummarySheet_lookup, mapSummarySheet_lookup, hfresh]
      rfl]
    show migrateHeader summaryHeaders = summaryHeaders
    unfold migrateHeader
    rw [if_neg (by simp [summaryHeaders])]
  · rw [hrows]
    show [] ++ [summaryRowFor now spec syn comp] =
      [summaryRowFor now spec syn comp]
    rfl

/-- Witness for the corruption-recovery claim: persisting over an OLE2
`.xls` blob. -/
theorem C8_corruption_recovery_witness :
    (persist_to_excel "t1" spec3Ex synEx none
      (⟨some oldXls, none⟩ : FsState)).backup = some oldXls ∧
    (persist_to_excel "t1" spec3Ex synEx none
      (⟨some oldXls, none⟩ : FsState)).excel =
      some (.xlsx (persist_wb "t1" spec3Ex synEx none freshWorkbook)) ∧
    headerOf (persist_wb "t1" spec3Ex synEx none freshWorkbook) =
      summaryHeaders ∧
    summaryRowsOf (persist_wb "t1" spec3Ex synEx none freshWorkbook) =
      [summaryRowFor "t1" spec3Ex synEx none] ∧
    ((persist_wb "t1" spec3Ex synEx none freshWorkbook).sheets.filter
      (fun p => p.1 == spec3Ex.run_id)).length = 1 :=
  C8_corruption_recovery "t1" spec3Ex synEx none ⟨some oldXls, none⟩
    oldXls rfl rfl (by decide)


theorem upsert_mem {p : String × α} {k : String} {v : α} :
    ∀ {l : List (String × α)}, p ∈ upsert l k v → p ∈ l ∨ p = (k, v) := by
  intro l hp
  unfold upsert at hp
  split_ifs at hp with ha
  · obtain ⟨q, hq, hqe⟩ := List.mem_map.mp hp
    split_ifs at hqe with hc
    · right
      rw [← hqe, hc]
    · left
      rw [← hqe]
      exact hq
  · rcases List.mem_append.mp hp with h | h
    · exact Or.inl h
    · right
      simpa using h

/-- Claim C10: loading a run directory that contains only a synthesis
record populates, for each style, only `final_score`, `gemini_rank` and
`opus_rank` — never the three average fields — and consequently, in any
comparison using that run as the current run, every candidate's
`current_pct` and `current_score` default to `0`. -/
theorem C10_synthesis_only_defaults (run_id : String) (d : RunDir)
    (syn : CSynthFile) (hsyn : d.synthesis = some syn)
    (hgem : d.gemini = none) (hacr : d.acrue = none)
    (hex : d.dirExists = true) :
    ∃ res, load_run_results run_id d = some res ∧
      (∀ p ∈ res.styles,
        p.2.avg_percentage = none ∧ p.2.avg_score = none ∧
        p.2.avg_grade = none ∧
        ∃ r ∈ syn.rankings, p.1 = r.style ∧
          p.2.final_score = r.final_score ∧
          p.2.gemini_rank = r.gemini_rank ∧
          p.2.opus_rank = r.opus_rank) ∧
      (∀ now base, ∀ e ∈ (compare_runs now res base).styles,
        e.current_pct = 0 ∧ e.current_score = 0) := by
  have hstep : ∀ (rs : List CSynthRanking), (∀ r ∈ rs, r ∈ syn.rankings) →
      ∀ (acc : List (String × StyleEntry)),
      (∀ p ∈ acc,
        p.2.avg_percentage = none ∧ p.2.avg_score = none ∧
        p.2.avg_grade = none ∧
        ∃ r ∈ syn.rankings, p.1 = r.style ∧
          p.2.final_score = r.final_score ∧
          p.2.gemini_rank = r.gemini_rank ∧
          p.2.opus_rank = r.opus_rank) →
      ∀ p ∈ rs.foldl (fun st r =>
          upsert st r.style
            { StyleEntry.empty with
                final_score := r.final_score
                gemini_rank := r.gemini_rank
                opus_rank := r.opus_rank }) acc,
        p.2.avg_percentage = none ∧ p.2.avg_score = none ∧
        p.2.avg_grade = none ∧
        ∃ r ∈ syn.rankings, p.1 = r.style ∧
          p.2.final_score = r.final_score ∧
          p.2.gemini_rank = r.gemini_rank ∧
          p.2.opus_rank = r.opus_rank := by
    intro rs
    induction rs with
    | nil =>
      intro _ acc hacc p hp
      exact hacc p hp
    | cons r rs ih =>
      intro hsub acc hacc p hp
      simp only [List.foldl_cons] at hp
      refine ih (fun q hq => hsub q (List.mem_cons_of_mem _ hq)) _ ?_ p hp
      intro q hq
      rcases upsert_mem hq with h | h
      · exact hacc q h
      · subst h
        exact ⟨rfl, rfl, rfl,
          r, hsub r (List.mem_cons_self _ _), rfl, rfl, rfl, rfl⟩
  have hload : load_run_results run_id d = some
      { run_id := run_id
        styles := syn.rankings.foldl (fun st r =>
          upsert st r.style
            { StyleEntry.empty with
                final_score := r.final_score
                gemini_rank := r.gemini_rank
                opus_rank := r.opus_rank }) []
        spec := d.run_spec } := by
    unfold load_run_results
    rw [hsyn, hgem, hacr, hex]
    rfl
  refine ⟨_, hload, ?_, ?_⟩
  · intro p hp
    exact hstep syn.rankings (fun r hr => hr) [] (by intro q hq; cases hq) p hp
  · intro now base e he
    simp only [compare_runs, List.mem_map] at he
    obtain ⟨sname, hs, rfl⟩ := he
    constructor
    · show ((alookup sname (syn.rankings.foldl (fun st r =>
          upsert st r.style
            { StyleEntry.empty with
                final_score := r.final_score
                gemini_rank := r.gemini_rank
                opus_rank := r.opus_rank }) [])).getD
          StyleEntry.empty).avg_percentage.getD 0 = 0
      cases halk : alookup sname (syn.rankings.foldl (fun st r =>
          upsert st r.style
            { StyleEntry.empty with
                final_score := r.final_score
                gemini_rank := r.gemini_rank
                opus_rank := r.opus_rank }) []) with
      | none => rfl
      | some v =>
        have hmem := alookup_mem halk
        have hv := hstep syn.rankings (fun r hr => hr) []
          (by intro q hq; cases hq) _ hmem
        have h1 : v.avg_percentage = none := hv.1
        simp [h1]
    · show ((alookup sname (syn.rankings.foldl (fun st r =>
          upsert st r.style
            { StyleEntry.empty with
                final_score := r.final_score
                gemini_rank := r.gemini_rank
                opus_rank := r.opus_rank }) [])).getD
          StyleEntry.empty).avg_score.getD 0 = 0
      cases halk : alookup sname (syn.rankings.foldl (fun st r =>
          upsert st r.style
            { StyleEntry.empty with
                final_score := r.final_score
                gemini_rank := r.gemini_rank
                opus_rank := r.opus_rank }) []) with
      | none => rfl
      | some v =>
        have hmem := alookup_mem halk
        have hv := hstep syn.rankings (fun r hr => hr) []
          (by intro q hq; cases hq) _ hmem
        have h1 : v.avg_score = none := hv.2.1
        simp [h1]

/-- Witness for the synthesis-only-load claim at a concrete run
directory. -/
theorem C10_synthesis_only_defaults_witness :
    ∃ res, load_run_results "Run_2026_02_04" synOnlyDir = some res ∧
      (∀ p ∈ res.styles,
        p.2.avg_percentage = none ∧ p.2.avg_score = none ∧
        p.2.avg_grade = none ∧
        ∃ r ∈ ({ rankings :=
            [{ style := "Anime", final_score := some 1.4,
               gemini_rank := some 1, opus_rank := some 2 },
             { style := "Pop Art", final_score := some 1.6,
               gemini_rank := some 2, opus_rank := some 1 }] } :
            CSynthFile).rankings, p.1 = r.style ∧
          p.2.final_score = r.final_score ∧
          p.2.gemini_rank = r.gemini_rank ∧
          p.2.opus_rank = r.opus_rank) ∧
      (∀ now base, ∀ e ∈ (compare_runs now res base).styles,
        e.current_pct = 0 ∧ e.current_score = 0) :=
  C10_synthesis_only_defaults "Run_2026_02_04" synOnlyDir _ rfl rfl rfl rfl

end AcrueSpec
